import Mathlib

/-!
ComicPad: episode access control, mint bookkeeping and marketplace statistics

A shallow embedding of `backend/src/models/Episode.js` (the methods `canAccess`,
`addMintedNFT`, `incrementStats`), of `getMarketplaceStats` in
`backend/src/controllers/statsController.js`, of the handlers of
`backend/src/controllers/readerController.js` and
`backend/src/controllers/comicControllerEnhanced.js`, of the upload filter of
`backend/src/routes/comicRoutesEnhanced.js`, and of the validators of
`frontend/src/utils/validators.test.js`.

Conventions of the embedding:

* a JavaScript `Number` is the exact rational value (`ℚ`) of a double; where the code
  divides, multiplies or adds page numbers and prices, the result is rounded to the
  nearest double by `toDouble`; the counters of an episode, which grow by whole numbers
  from 0, are exact;
* a value that may be `undefined` is an `Option` (`none` = `undefined`);
* a `Date` is a number of milliseconds (`Nat`); each `new Date()` is one clock reading,
  passed in as an argument;
* a method that runs on `this` takes the document and returns the document after the
  call (together with the returned value when there is one); `await this.save()` writes
  the in-memory document to the database and does not change the fields modelled here.
-/

set_option autoImplicit false

namespace ComicPad

/-! ## Data model (`episodeSchema`) -/

/-- One element of `mintedNFTs`: `{ serialNumber, owner, mintedAt, transactionId }`. -/
structure MintedNFT where
  serialNumber : Option ℚ
  owner : Option String
  mintedAt : Option Nat
  transactionId : Option String
deriving DecidableEq

/-- The `pricing` sub-document. -/
structure Pricing where
  mintPrice : ℚ
  readPrice : ℚ
  currency : String
deriving DecidableEq

/-- The `supply` sub-document (`maxSupply = 0` means unlimited). -/
structure Supply where
  maxSupply : ℚ
  currentSupply : ℚ
  burned : ℚ
deriving DecidableEq

/-- The `mintingRules` sub-document. -/
structure MintingRules where
  enabled : Bool
  startTime : Option Nat
  endTime : Option Nat
  maxPerWallet : ℚ
  whitelistOnly : Bool
  whitelist : List String
deriving DecidableEq

/-- The `stats` sub-document. A counter is `some q` when it holds the number `q` and
`none` when it holds no number (`undefined` or `NaN`): both are falsy under `||` and both
give `NaN` under `+`. -/
structure Stats where
  totalMinted : Option ℚ
  totalReads : Option ℚ
  totalEarnings : Option ℚ
  uniqueReaders : Option ℚ
  averageRating : Option ℚ
  totalRatings : Option ℚ
deriving DecidableEq

/-- The counter names of `stats`, the values `field` ranges over in `this.stats[field]`. -/
inductive StatField where
  | totalMinted
  | totalReads
  | totalEarnings
  | uniqueReaders
  | averageRating
  | totalRatings
deriving DecidableEq

/-- The property read `stats[field]`. -/
def Stats.get (s : Stats) : StatField → Option ℚ
  | .totalMinted => s.totalMinted
  | .totalReads => s.totalReads
  | .totalEarnings => s.totalEarnings
  | .uniqueReaders => s.uniqueReaders
  | .averageRating => s.averageRating
  | .totalRatings => s.totalRatings

/-- The property write `stats[field] = v`. -/
def Stats.set (s : Stats) (field : StatField) (v : Option ℚ) : Stats :=
  match field with
  | .totalMinted => { s with totalMinted := v }
  | .totalReads => { s with totalReads := v }
  | .totalEarnings => { s with totalEarnings := v }
  | .uniqueReaders => { s with uniqueReaders := v }
  | .averageRating => { s with averageRating := v }
  | .totalRatings => { s with totalRatings := v }

/-- An Episode document. -/
structure Episode where
  title : String
  description : Option String
  episodeNumber : ℚ
  comic : String
  creator : String
  collectionTokenId : String
  totalPages : ℚ
  pricing : Pricing
  supply : Supply
  mintingRules : MintingRules
  mintedNFTs : List MintedNFT
  stats : Stats
  status : String
  isLive : Bool
  isFree : Bool
  accessType : String
  publishedAt : Option Nat
  lastMintedAt : Option Nat
deriving DecidableEq

/-- The values `canAccess` returns: a boolean or a string. -/
inductive JsVal where
  | bool (b : Bool)
  | str (s : String)
deriving DecidableEq

/-! ## `episodeSchema.methods` -/

/-- The method `canAccess(userAccountId)`: the returned value and the document after the
call. -/
def Episode.canAccess (ep : Episode) (userAccountId : Option String) : JsVal × Episode :=
  -- Free episodes
  if ep.isFree || ep.accessType == "free" then
    (JsVal.bool true, ep)
  -- Public episodes (preview only)
  else if ep.accessType == "public" then
    (JsVal.str "preview", ep)
  -- Check NFT ownership
  else if ep.accessType == "nft-holders" then
    let hasNFT := ep.mintedNFTs.any (fun nft => nft.owner == userAccountId)
    (JsVal.bool hasNFT, ep)
  -- Paid access
  else if ep.accessType == "paid" then
    (JsVal.bool false, ep)
  else
    (JsVal.bool false, ep)

/-- The compound assignment `x += d` on a counter: a number is increased by `d`, a
non-number stays a non-number (`NaN`). -/
def jsAddAssign (x : Option ℚ) (d : ℚ) : Option ℚ :=
  x.map (fun q => q + d)

/-- The method `addMintedNFT(serialNumber, owner, transactionId)`; `t1` and `t2` are the
two clock readings `new Date()` of the call, in order. -/
def Episode.addMintedNFT (ep : Episode) (serialNumber : Option ℚ) (owner : Option String)
    (transactionId : Option String) (t1 t2 : Nat) : Episode :=
  { ep with
    mintedNFTs := ep.mintedNFTs ++
      [{ serialNumber := serialNumber, owner := owner, mintedAt := some t1,
         transactionId := transactionId }]
    supply := { ep.supply with currentSupply := ep.supply.currentSupply + 1 }
    stats := { ep.stats with totalMinted := jsAddAssign ep.stats.totalMinted 1 }
    lastMintedAt := some t2 }

/-- The expression `x || 0` on a counter: `0` for a falsy value (`undefined`, `NaN`,
`0`), the number itself otherwise. -/
def jsOrZero : Option ℚ → ℚ
  | none => 0
  | some q => if q = 0 then 0 else q

/-- The method `incrementStats(field, value = 1)`; `value = none` is a call without the
second argument. -/
def Episode.incrementStats (ep : Episode) (field : StatField) (value : Option ℚ) : Episode :=
  let value := value.getD 1
  { ep with stats := ep.stats.set field (some (jsOrZero (ep.stats.get field) + value)) }

/-- The document `new Episode({...})` builds from the required fields: every other path
takes the default the schema declares. -/
def Episode.create (title comic creator collectionTokenId : String) (episodeNumber : ℚ) :
    Episode where
  title := title
  description := none
  episodeNumber := episodeNumber
  comic := comic
  creator := creator
  collectionTokenId := collectionTokenId
  totalPages := 0
  pricing := { mintPrice := 0, readPrice := 0, currency := "HBAR" }
  supply := { maxSupply := 0, currentSupply := 0, burned := 0 }
  mintingRules := { enabled := false, startTime := none, endTime := none, maxPerWallet := 0,
                    whitelistOnly := false, whitelist := [] }
  mintedNFTs := []
  stats := { totalMinted := some 0, totalReads := some 0, totalEarnings := some 0,
             uniqueReaders := some 0, averageRating := some 0, totalRatings := some 0 }
  status := "draft"
  isLive := false
  isFree := false
  accessType := "nft-holders"
  publishedAt := none
  lastMintedAt := none

/-! ## Sequences of calls -/

/-- The arguments and clock readings of one `addMintedNFT` call. -/
structure MintCall where
  serialNumber : Option ℚ
  owner : Option String
  transactionId : Option String
  t1 : Nat
  t2 : Nat
deriving DecidableEq

/-- One recorded mint. -/
def Episode.mint (ep : Episode) (c : MintCall) : Episode :=
  ep.addMintedNFT c.serialNumber c.owner c.transactionId c.t1 c.t2

/-- A finite sequence of recorded mints, first to last. -/
def Episode.mintAll (ep : Episode) (calls : List MintCall) : Episode :=
  calls.foldl Episode.mint ep

/-- The supply inequality `currentSupply + burned <= maxSupply`. -/
def Episode.supplyWithinCap (ep : Episode) : Prop :=
  ep.supply.currentSupply + ep.supply.burned ≤ ep.supply.maxSupply

instance (ep : Episode) : Decidable ep.supplyWithinCap :=
  inferInstanceAs (Decidable (_ ≤ _))

/-- A call of one of the three Episode methods. -/
inductive Op where
  | canAccess (userAccountId : Option String)
  | addMintedNFT (c : MintCall)
  | incrementStats (field : StatField) (value : Option ℚ)

/-- The document after one method call. -/
def Episode.step (ep : Episode) : Op → Episode
  | .canAccess u => (ep.canAccess u).2
  | .addMintedNFT c => ep.mint c
  | .incrementStats f v => ep.incrementStats f v

/-- The document after a finite sequence of method calls, first to last. -/
def Episode.run (ep : Episode) (ops : List Op) : Episode :=
  ops.foldl Episode.step ep

/-! ## Double-precision arithmetic -/

/-- The integer nearest to `y`, the even one on a tie (round-half-to-even). -/
def roundHalfEven (y : ℚ) : ℤ :=
  let f := ⌊y + 1 / 2⌋
  if y + 1 / 2 = (f : ℚ) ∧ f % 2 = 1 then f - 1 else f

/-- The binary exponent at which a double holds `x`: the `e` with `2^e <= |x| < 2^(e+1)`,
and `-1022` for a smaller `x` (the subnormal range). -/
def doubleExponent (x : ℚ) : ℤ :=
  max (Int.log 2 |x|) (-1022)

/-- The double nearest to `x` (IEEE 754 binary64, round to nearest, ties to even): a
multiple of `2^(e - 52)` for the exponent `e` of `x`; `none` when the result overflows
(the value is then infinite). -/
def toDouble (x : ℚ) : Option ℚ :=
  let ulp : ℚ := 2 ^ (doubleExponent x - 52)
  let r : ℚ := (roundHalfEven (x / ulp) : ℚ) * ulp
  if (2 : ℚ) ^ 1024 ≤ |r| then none else some r

/-- The sum of a list of numbers as the code's `reduce` computes it: from 0, left to
right, each addition rounded to the nearest double; `none` when it overflows. -/
def doubleSum (xs : List ℚ) : Option ℚ :=
  xs.foldl (fun sum x => sum.bind (fun s => toDouble (s + x))) (some 0)

/-! ## `getMarketplaceStats` (`statsController.js`) -/

/-- Modelled from the spec: the Listing model (`models/Listing.js` is imported by the
controller and is not among the sources). The spec gives a listing a listing type, a
price and a status (`active | completed | cancelled`). `price` is what `listing.price`
holds as a number; `none` is a value `parseFloat` reads as `NaN`. -/
structure Listing where
  price : Option ℚ
  status : String
  listingType : String
deriving DecidableEq

/-- The call `parseFloat(listing.price)`: the number the price holds, `NaN` (`none`)
otherwise. -/
def parseFloat (price : Option ℚ) : Option ℚ := price

/-- The call `parseFloat(x.toFixed(2))` on a number: `toFixed` drops the sign, keeps
`x` as it is from `10^21` on, and otherwise takes the integer `n` with `n / 100` nearest
to `x` (the larger one on a tie). The result is written as the decimal `n / 100` that
`toFixed` prints and that denotes the double `parseFloat` reads back. -/
def toFixed2 (x : ℚ) : ℚ :=
  if (10 : ℚ) ^ 21 ≤ |x| then x
  else if x < 0 then -((⌊(-x) * 100 + 1 / 2⌋ : ℤ) / 100)
  else (⌊x * 100 + 1 / 2⌋ : ℤ) / 100

/-- The call `Math.min(p, ...ps)` on at least one number. -/
def mathMin (p : ℚ) (ps : List ℚ) : ℚ :=
  ps.foldl min p

/-- The `data` object of the response; `totalVolume` is `none` when the sum is not a
finite number. -/
structure MarketplaceStats where
  activeAuctions : Nat
  totalVolume : Option ℚ
  floorPrice : ℚ
  totalListings : Nat
deriving DecidableEq

/-- The query `Listing.find({ status: 'active' })`. -/
def activeListings (listings : List Listing) : List Listing :=
  listings.filter (fun l => l.status == "active")

/-- The array `activeListings.map(l => parseFloat(l.price)).filter(p => p > 0)`: `NaN > 0`
is false, so what is kept is a list of numbers. -/
def positivePrices (active : List Listing) : List ℚ :=
  (active.map (fun l => parseFloat l.price)).filterMap
    (fun p => match p with
      | some q => if q > 0 then some q else none
      | none => none)

/-- The handler `getMarketplaceStats` over the Listing collection `listings`. -/
def getMarketplaceStats (listings : List Listing) : MarketplaceStats :=
  let activeAuctions :=
    (listings.filter (fun l => l.status == "active" && l.listingType == "auction")).length
  let active := activeListings listings
  let totalVolume := active.foldl
    (fun sum listing => sum.bind (fun s => toDouble (s + jsOrZero (parseFloat listing.price))))
    (some 0)
  let prices := positivePrices active
  let floorPrice :=
    match prices with
    | [] => 0
    | p :: ps => mathMin p ps
  let totalListings := active.length
  { activeAuctions := activeAuctions
    totalVolume := totalVolume.map toFixed2
    floorPrice := toFixed2 floorPrice
    totalListings := totalListings }

/-- The spec's floor price of a set of listings: `m` is the price of an active listing
with price > 0, and no active listing with price > 0 has a smaller price. -/
def IsFloorPrice (listings : List Listing) (m : ℚ) : Prop :=
  (∃ l ∈ listings, l.status = "active" ∧ l.price = some m ∧ 0 < m) ∧
  ∀ l ∈ listings, l.status = "active" → ∀ q : ℚ, l.price = some q → 0 < q → m ≤ q

/-- The spec's total volume of a set of listings: the exact sum of `price` over the
listings with status `active` (a price that is not a number adds nothing). -/
def activePriceSum (listings : List Listing) : ℚ :=
  ((listings.filter (fun l => l.status == "active")).map (fun l => l.price.getD 0)).sum

/-! ## Reading tracker (`readerController.js`) -/

/-- A response `res.status(status).json({ success, message, data })`; `res.json` alone
sends status 200. -/
structure Response (α : Type) where
  status : Nat
  success : Bool
  message : Option String
  data : Option α
deriving DecidableEq

/-- The `wallet` of a user. -/
structure Wallet where
  accountId : Option String
deriving DecidableEq

/-- The authenticated user: `req.user` (its `id` and `wallet`), which is also the document
`User.findById(req.user.id)` returns. -/
structure User where
  id : String
  wallet : Option Wallet
deriving DecidableEq

/-- The optional chain `user.wallet?.accountId`. -/
def User.accountId (user : User) : Option String :=
  user.wallet.bind (fun w => w.accountId)

/-- The test `!x` on a string that may be `undefined`: true for `undefined` and `''`. -/
def jsNot : Option String → Bool
  | none => true
  | some s => s == ""

/-- The expression `x || ''` on a string that may be `undefined`. -/
def jsOrEmpty : Option String → String
  | none => ""
  | some s => s

/-- Modelled from the spec: one NFT record of a Comic (`models/Comic.js` is not among the
sources); the controller reads its `owner`, a user reference. -/
structure ComicNFT where
  owner : String
deriving DecidableEq

/-- The download locations `comic.content.downloads`. -/
structure Downloads where
  cbz : Option String
  pdf : Option String
deriving DecidableEq

/-- Modelled from the spec: the Comic model (`models/Comic.js` is not among the sources):
title, aggregate page count, NFT records, page references and download locations. -/
structure Comic where
  _id : String
  title : String
  pageCount : ℚ
  nfts : List ComicNFT
  pages : List String
  downloads : Downloads
deriving DecidableEq

/-- The `progress` of a ReadHistory record; `none` is a field that holds no number
(not given, `NaN` or infinite), for `completed` a field that is not given. -/
structure Progress where
  currentPage : Option ℚ
  totalPages : Option ℚ
  percentage : Option ℚ
  completed : Option Bool
deriving DecidableEq

/-- Modelled from the spec: the ReadHistory model (`models/ReadHistory.js` is not among
the sources): user reference, account id snapshot, comic and nullable episode reference,
access type, progress, last-accessed timestamp. -/
structure ReadHistory where
  _id : Nat
  user : String
  userAccountId : String
  comic : String
  episode : Option String
  accessType : String
  progress : Progress
  lastAccessedAt : Option Nat
deriving DecidableEq

/-- The query `Comic.findById(comicId)`. -/
def Comic.findById (comics : List Comic) (comicId : String) : Option Comic :=
  comics.find? (fun c => c._id == comicId)

/-- The query `ReadHistory.findOne({ user: userId, comic: comicId })`. -/
def ReadHistory.findOne (store : List ReadHistory) (userId comicId : String) :
    Option ReadHistory :=
  store.find? (fun r => r.user == userId && r.comic == comicId)

/-- The call `ReadHistory.create(doc)`: the stored record and the collection after it;
the `_id` of `doc` is the one the database assigns. -/
def ReadHistory.create (store : List ReadHistory) (doc : ReadHistory) :
    ReadHistory × List ReadHistory :=
  (doc, store ++ [doc])

/-- The double `1e-6`, the smallest positive double that `Number::toString` writes without
an exponent. -/
def doubleMicro : ℚ := 4722366482869645 / 2 ^ 72

/-- The first digit of the shortest decimal that reads back as the positive double `x`
(the digits `Number::toString` writes): the first digit of `x` itself, unless the next
multiple of the same power of ten already reads back as `x`. -/
def leadingDigit (x : ℚ) : ℚ :=
  let e10 := Int.log 10 x
  let d := ⌊x / (10 : ℚ) ^ e10⌋
  if toDouble (((d + 1 : ℤ) : ℚ) * (10 : ℚ) ^ e10) = some x then
    (if d + 1 = 10 then 1 else ((d + 1 : ℤ) : ℚ))
  else (d : ℚ)

/-- The call `parseInt(x)` on a request value: `none` is a value read as `NaN`. A number
is first written as a string: from the double `1e-6` up to `10^21` without exponent, and
`parseInt` reads its integer part; outside that range with an exponent (`5e-7`,
`1.2e+21`), and `parseInt` reads the digit before the `.` or the `e`. -/
def parseInt : Option ℚ → Option ℚ
  | none => none
  | some q =>
    if q = 0 then some 0
    else if doubleMicro ≤ |q| ∧ |q| < 10 ^ 21 then
      some (if q < 0 then -((⌊-q⌋ : ℤ) : ℚ) else ((⌊q⌋ : ℤ) : ℚ))
    else
      some (if q < 0 then -leadingDigit (-q) else leadingDigit q)

/-- The call `Math.round(x)` on a double: the nearest integer, the larger one on a tie
(an integer that a double holds exactly). -/
def mathRound (x : ℚ) : ℚ :=
  ((⌊x + 1 / 2⌋ : ℤ) : ℚ)

/-- The expression `Math.round((c / p) * 100)`: the quotient and the product are each
rounded to the nearest double; not a number when `c` is `NaN`, when `p` is 0 (the
quotient is then infinite or `NaN`) or when the quotient or the product overflows. -/
def percentageOf (c : Option ℚ) (p : ℚ) : Option ℚ :=
  match c with
  | none => none
  | some c =>
    if p = 0 then none
    else (toDouble (c / p)).bind (fun q => (toDouble (q * 100)).map mathRound)

/-- The comparison `c >= p`: false when `c` is `NaN`. -/
def jsGe (c : Option ℚ) (p : ℚ) : Bool :=
  match c with
  | none => false
  | some c => decide (c ≥ p)

/-- Lines 35-54 of `getComicContent`: get or create the reading progress. -/
def findOrCreateProgress (store : List ReadHistory) (user : User) (comic : Comic)
    (comicId : String) (newId : Nat) : ReadHistory × List ReadHistory :=
  match ReadHistory.findOne store user.id comicId with
  | some progress => (progress, store)
  | none =>
    ReadHistory.create store
      { _id := newId
        user := user.id
        userAccountId := jsOrEmpty user.accountId
        comic := comicId
        episode := none
        accessType := "nft-owner"
        progress := { currentPage := some 1, totalPages := some comic.pageCount,
                      percentage := none, completed := none }
        lastAccessedAt := none }

/-- The `comic` part of the data `getComicContent` sends. -/
structure ComicView where
  id : String
  title : String
  pageCount : ℚ
  pages : List String
  downloads : Downloads
deriving DecidableEq

/-- The `progress` part of the data `getComicContent` sends. -/
structure ProgressView where
  currentPage : Option ℚ
  bookmarks : List Nat
  lastReadAt : Option Nat
deriving DecidableEq

/-- The data `getComicContent` sends. -/
structure ComicContent where
  comic : ComicView
  progress : ProgressView
deriving DecidableEq

/-- The handler `getComicContent`: the response and the ReadHistory collection after it. -/
def getComicContent (comics : List Comic) (store : List ReadHistory) (user : User)
    (comicId : String) (newId : Nat) : Response ComicContent × List ReadHistory :=
  let userId := user.id
  match Comic.findById comics comicId with
  | none =>
    ({ status := 404, success := false, message := some "Comic not found", data := none },
     store)
  | some comic =>
    -- Verify ownership
    let ownsNFT := comic.nfts.any (fun nft => nft.owner == userId)
    if !ownsNFT then
      ({ status := 403, success := false,
         message := some "You must own this comic NFT to read it", data := none }, store)
    else
      let (progress, store') := findOrCreateProgress store user comic comicId newId
      ({ status := 200, success := true, message := none,
         data := some
           { comic := { id := comic._id, title := comic.title, pageCount := comic.pageCount,
                        pages := comic.pages, downloads := comic.downloads }
             progress := { currentPage := progress.progress.currentPage, bookmarks := [],
                           lastReadAt := progress.lastAccessedAt } } }, store')

/-- The record the store holds at the place of `old` after `old` became `new`. -/
def replaceRecord (store : List ReadHistory) (old new : ReadHistory) : List ReadHistory :=
  store.map (fun r => if r = old then new else r)

/-- The handler `saveProgress`; `currentPage` is `req.body.currentPage`, and
`updateProgress` is the method of the ReadHistory model (not among the sources), which
returns the record after the update. -/
def saveProgress (updateProgress : ReadHistory → Option ℚ → ℚ → ReadHistory)
    (comics : List Comic) (store : List ReadHistory) (user : User) (comicId : String)
    (currentPage : Option ℚ) (newId : Nat) : Response Progress × List ReadHistory :=
  let userId := user.id
  match Comic.findById comics comicId with
  | none =>
    ({ status := 404, success := false, message := some "Comic not found", data := none },
     store)
  | some comic =>
    match ReadHistory.findOne store userId comicId with
    | none =>
      let (progress, store') := ReadHistory.create store
        { _id := newId
          user := userId
          userAccountId := jsOrEmpty user.accountId
          comic := comicId
          episode := none
          accessType := "nft-owner"
          progress := { currentPage := parseInt currentPage
                        totalPages := some comic.pageCount
                        percentage := percentageOf (parseInt currentPage) comic.pageCount
                        completed := some (jsGe (parseInt currentPage) comic.pageCount) }
          lastAccessedAt := none }
      ({ status := 200, success := true, message := some "Progress saved",
         data := some progress.progress }, store')
    | some progress =>
      let progress' := updateProgress progress (parseInt currentPage) comic.pageCount
      ({ status := 200, success := true, message := some "Progress saved",
         data := some progress'.progress }, replaceRecord store progress progress')

/-- The handler `toggleBookmark`: the response and the ReadHistory collection after it;
`none` when the handler throws (no record yet and `Comic.findById` finds no comic, so
`comic.pageCount` is read on `null`). -/
def toggleBookmark (comics : List Comic) (store : List ReadHistory) (user : User)
    (comicId : String) (newId : Nat) : Option (Response (List Nat) × List ReadHistory) :=
  let userId := user.id
  let sent : Response (List Nat) :=
    { status := 200, success := true,
      message := some "Bookmark feature will be available soon", data := some [] }
  match ReadHistory.findOne store userId comicId with
  | some _ => some (sent, store)
  | none =>
    match Comic.findById comics comicId with
    | none => none
    | some comic =>
      let (_, store') := ReadHistory.create store
        { _id := newId
          user := userId
          userAccountId := jsOrEmpty user.accountId
          comic := comicId
          episode := none
          accessType := "nft-owner"
          progress := { currentPage := none, totalPages := some comic.pageCount,
                        percentage := none, completed := none }
          lastAccessedAt := none }
      some (sent, store')

/-- The data `downloadComic` sends. -/
structure DownloadData where
  cbzUrl : Option String
  pdfUrl : Option String
  title : String
deriving DecidableEq

/-- The handler `downloadComic`. -/
def downloadComic (comics : List Comic) (user : User) (comicId : String) :
    Response DownloadData :=
  let userId := user.id
  match Comic.findById comics comicId with
  | none =>
    { status := 404, success := false, message := some "Comic not found", data := none }
  | some comic =>
    -- Verify ownership
    let ownsNFT := comic.nfts.any (fun nft => nft.owner == userId)
    if !ownsNFT then
      { status := 403, success := false,
        message := some "You must own this comic NFT to download it", data := none }
    else
      { status := 200, success := true, message := none,
        data := some { cbzUrl := comic.downloads.cbz, pdfUrl := comic.downloads.pdf,
                       title := comic.title } }

/-- Modelled from the spec: the method `updateProgress(currentPage, totalPages)` of the
ReadHistory model (not among the sources): it stores the page and the page count and
recomputes `percentage = round(currentPage / totalPages * 100)` and
`completed = currentPage >= totalPages`. -/
def ReadHistory.updateProgress (r : ReadHistory) (currentPage : Option ℚ) (totalPages : ℚ) :
    ReadHistory :=
  { r with progress := { currentPage := currentPage
                         totalPages := some totalPages
                         percentage := percentageOf currentPage totalPages
                         completed := some (jsGe currentPage totalPages) } }

/-! ## Comic controller (`comicControllerEnhanced.js`) -/

/-- The response every handler sends when `req.user.wallet?.accountId` is falsy. -/
def walletNotConnected (α : Type) : Response α :=
  { status := 400, success := false, message := some "Hedera wallet not connected",
    data := none }

/-- A file multer stored for the request. -/
structure UploadedFile where
  path : String
deriving DecidableEq

/-- An element `{ path: f.path }` of the `pages` the controller builds. -/
structure PageRef where
  path : String
deriving DecidableEq

/-- The argument of `comicService.createComic`; `J` is the type of the values of the
request body, which the controller passes on untouched. -/
structure CreateComicArgs (J : Type) where
  userId : String
  accountId : Option String
  title : J
  description : J
  series : J
  genres : J
  tags : J
  coverImage : Option String
  royaltyPercentage : J
  maxSupply : J

/-- The argument of `comicService.createEpisode`. -/
structure CreateEpisodeArgs (J : Type) where
  comicId : String
  userId : String
  title : J
  description : J
  episodeNumber : J
  coverImage : Option String
  pages : List PageRef
  mintPrice : J
  readPrice : J
  maxSupply : J

/-- The argument of `comicService.mintEpisodeNFT`. -/
structure MintEpisodeArgs where
  episodeId : String
  buyerAccountId : Option String
  quantity : ℚ
deriving DecidableEq

/-- The value `comicService.verifyEpisodeAccess` returns: the controller reads `hasAccess`
and `message` and sends the whole object. -/
structure AccessData (R : Type) where
  hasAccess : Bool
  message : Option String
  content : R

/-- The comic service (`services/comicService.js`, not among the sources), taken as a
parameter: a call runs on the state `σ` of the database and the ledger, and returns a
result or throws an error with a message. -/
structure ComicService (σ J R : Type) where
  createComic : CreateComicArgs J → σ → Except String R × σ
  createEpisode : CreateEpisodeArgs J → σ → Except String R × σ
  mintEpisodeNFT : MintEpisodeArgs → σ → Except String R × σ
  verifyEpisodeAccess : String → Option String → String → σ →
    Except String (AccessData R) × σ

/-- The request of `createComic`: `req.body`, `req.user`, `req.file`. -/
structure CreateComicRequest (J : Type) where
  title : J
  description : J
  series : J
  genres : J
  tags : J
  royaltyPercentage : J
  maxSupply : J
  user : User
  file : Option UploadedFile

/-- The handler `createComic`: the response and the state after it. -/
def createComic {σ J R : Type} (svc : ComicService σ J R) (req : CreateComicRequest J)
    (s : σ) : Response R × σ :=
  let userId := req.user.id
  let accountId := req.user.accountId
  if jsNot accountId then
    (walletNotConnected R, s)
  else
    match svc.createComic
        { userId := userId, accountId := accountId, title := req.title,
          description := req.description, series := req.series, genres := req.genres,
          tags := req.tags, coverImage := req.file.map (fun f => f.path),
          royaltyPercentage := req.royaltyPercentage, maxSupply := req.maxSupply } s with
    | (.ok result, s') =>
      ({ status := 201, success := true,
         message := some "Comic collection created successfully", data := some result }, s')
    | (.error message, s') =>
      ({ status := 500, success := false, message := some message, data := none }, s')

/-- The object `req.files` multer builds for `upload.fields`: one array per field name
that came with files. -/
structure UploadedFiles where
  cover : Option (List UploadedFile)
  pages : Option (List UploadedFile)
deriving DecidableEq

/-- The request of `createEpisode`: `req.params`, `req.body`, `req.user`, `req.files`
(`none` when the request has no `req.files`, which is the case for a request that is not
multipart). -/
structure CreateEpisodeRequest (J : Type) where
  comicId : String
  title : J
  description : J
  episodeNumber : J
  mintPrice : J
  readPrice : J
  maxSupply : J
  user : User
  files : Option UploadedFiles

/-- The expression `files.cover?.[0]?.path`. -/
def coverPath (files : UploadedFiles) : Option String :=
  (files.cover.bind (fun c => c.head?)).map (fun f => f.path)

/-- The expression `files.pages?.map(f => ({ path: f.path })) || []`. -/
def pageRefs (files : UploadedFiles) : List PageRef :=
  (files.pages.map (fun ps => ps.map (fun f => ({ path := f.path } : PageRef)))).getD []

/-- The handler `createEpisode`: the response and the state after it; `typeError` is the
message of the `TypeError` the engine throws for a property read on `undefined`. -/
def createEpisode {σ J R : Type} (svc : ComicService σ J R) (typeError : String)
    (req : CreateEpisodeRequest J) (s : σ) : Response R × σ :=
  let userId := req.user.id
  -- Get uploaded files
  match req.files with
  | none =>
    -- `files.cover` throws, the `catch` block answers
    ({ status := 500, success := false, message := some typeError, data := none }, s)
  | some files =>
    let coverImage := coverPath files
    let pages := pageRefs files
    if jsNot coverImage || pages.length == 0 then
      ({ status := 400, success := false,
         message := some "Cover image and pages are required", data := none }, s)
    else
      match svc.createEpisode
          { comicId := req.comicId, userId := userId, title := req.title,
            description := req.description, episodeNumber := req.episodeNumber,
            coverImage := coverImage, pages := pages, mintPrice := req.mintPrice,
            readPrice := req.readPrice, maxSupply := req.maxSupply } s with
      | (.ok result, s') =>
        ({ status := 201, success := true, message := some "Episode created successfully",
           data := some result }, s')
      | (.error message, s') =>
        ({ status := 500, success := false, message := some message, data := none }, s')

/-- The handler `mintEpisodeNFT`; `quantity = none` is a body without `quantity`, and
`numberToString` writes a number inside the template string. -/
def mintEpisodeNFT {σ J R : Type} (svc : ComicService σ J R) (numberToString : ℚ → String)
    (episodeId : String) (quantity : Option ℚ) (user : User) (s : σ) : Response R × σ :=
  let quantity := quantity.getD 1
  let buyerAccountId := user.accountId
  if jsNot buyerAccountId then
    (walletNotConnected R, s)
  else
    match svc.mintEpisodeNFT
        { episodeId := episodeId, buyerAccountId := buyerAccountId, quantity := quantity } s with
    | (.ok result, s') =>
      ({ status := 200, success := true,
         message := some ("Minted " ++ numberToString quantity ++ " NFT(s) successfully"),
         data := some result }, s')
    | (.error message, s') =>
      ({ status := 500, success := false, message := some message, data := none }, s')

/-- The handler `readEpisode`. -/
def readEpisode {σ J R : Type} (svc : ComicService σ J R) (episodeId : String) (user : User)
    (s : σ) : Response (AccessData R) × σ :=
  let userId := user.id
  let userAccountId := user.accountId
  if jsNot userAccountId then
    (walletNotConnected (AccessData R), s)
  else
    match svc.verifyEpisodeAccess episodeId userAccountId userId s with
    | (.ok accessData, s') =>
      if !accessData.hasAccess then
        ({ status := 403, success := false, message := accessData.message, data := none }, s')
      else
        ({ status := 200, success := true, message := none, data := some accessData }, s')
    | (.error message, s') =>
      ({ status := 500, success := false, message := some message, data := none }, s')

/-- The `episode` part of a collection entry (of the fields the Episode model here
carries). -/
structure EpisodeRef where
  title : String
  episodeNumber : ℚ
deriving DecidableEq

/-- One element of the collection `getMyCollection` sends. -/
structure CollectionEntry where
  episode : EpisodeRef
  comic : String
  nfts : List MintedNFT
deriving DecidableEq

/-- The query `Episode.find({ 'mintedNFTs.owner': userAccountId })`. -/
def episodesOwnedBy (episodes : List Episode) (userAccountId : Option String) : List Episode :=
  episodes.filter (fun e => e.mintedNFTs.any (fun nft => nft.owner == userAccountId))

/-- The entry `getMyCollection` builds for one episode. -/
def collectionEntry (userAccountId : Option String) (episode : Episode) : CollectionEntry :=
  let ownedNFTs := episode.mintedNFTs.filter (fun nft => nft.owner == userAccountId)
  { episode := { title := episode.title, episodeNumber := episode.episodeNumber }
    comic := episode.comic
    nfts := ownedNFTs }

/-- The handler `getMyCollection` over the Episode collection `episodes`. -/
def getMyCollection (episodes : List Episode) (user : User) :
    Response (List CollectionEntry) :=
  let userAccountId := user.accountId
  if jsNot userAccountId then
    walletNotConnected (List CollectionEntry)
  else
    let found := episodesOwnedBy episodes userAccountId
    let collection := found.map (collectionEntry userAccountId)
    { status := 200, success := true, message := none, data := some collection }

/-! ## Validators (`utils/validators.test.js`) -/

/-- The regular expressions the validators use between `^` and `$`: a literal character,
a character class repeated one or more times (`\d+`, `[^\s@]+`), a sequence. -/
inductive Regex where
  | chr (c : Char)
  | plus (cls : Char → Bool)
  | seq (a b : Regex)

/-- Whether the whole input matches: a sequence matches when the input splits into a part
matching the first expression and a part matching the second. -/
def Regex.matchesAll : Regex → List Char → Bool
  | .chr c, s => s == [c]
  | .plus cls, s => !s.isEmpty && s.all cls
  | .seq a b, s =>
    (List.range (s.length + 1)).any (fun i => a.matchesAll (s.take i) && b.matchesAll (s.drop i))

/-- The call `/^r$/.test(s)` on a string. -/
def Regex.test (r : Regex) (s : String) : Bool :=
  r.matchesAll s.toList

/-- The class `\s`: the white space and line terminator characters of ECMAScript. -/
def isJsWhitespace (c : Char) : Bool :=
  c.val == 0x09 || c.val == 0x0A || c.val == 0x0B || c.val == 0x0C || c.val == 0x0D ||
  c.val == 0x20 || c.val == 0xA0 || c.val == 0x1680 || (0x2000 ≤ c.val && c.val ≤ 0x200A) ||
  c.val == 0x2028 || c.val == 0x2029 || c.val == 0x202F || c.val == 0x205F ||
  c.val == 0x3000 || c.val == 0xFEFF

/-- The class `[^\s@]`. -/
def notSpaceNorAt (c : Char) : Bool :=
  !(isJsWhitespace c || c == '@')

/-- The expression `0\.0\.\d+`. -/
def accountIdRegex : Regex :=
  .seq (.chr '0') (.seq (.chr '.') (.seq (.chr '0') (.seq (.chr '.') (.plus Char.isDigit))))

/-- The validator `isValidAccountId`: `/^0\.0\.\d+$/.test(accountId)`. -/
def isValidAccountId (accountId : String) : Bool :=
  accountIdRegex.test accountId

/-- The expression `[^\s@]+@[^\s@]+\.[^\s@]+`. -/
def emailRegex : Regex :=
  .seq (.plus notSpaceNorAt) (.seq (.chr '@')
    (.seq (.plus notSpaceNorAt) (.seq (.chr '.') (.plus notSpaceNorAt))))

/-- The validator `isValidEmail`: `/^[^\s@]+@[^\s@]+\.[^\s@]+$/.test(email)`. -/
def isValidEmail (email : String) : Bool :=
  emailRegex.test email

/-! ## Upload filter (`routes/comicRoutesEnhanced.js`) -/

/-- The file multer hands to `fileFilter`: the name the client gave and the MIME type the
client declared. -/
structure IncomingFile where
  originalname : String
  mimetype : String
deriving DecidableEq

/-- The variables of the loop of Node's `path.extname` (POSIX); `none` is the value `-1`,
and `stopped` records the `break`. -/
structure ExtnameState where
  startDot : Option Nat
  startPart : Nat
  endIdx : Option Nat
  matchedSlash : Bool
  preDotState : Int
  stopped : Bool
deriving DecidableEq

/-- One pass of the loop of `path.extname` at index `i`, on the character `c`. -/
def extnameStep (st : ExtnameState) (ic : Nat × Char) : ExtnameState :=
  if st.stopped then st
  else if ic.2 = '/' then
    if !st.matchedSlash then { st with startPart := ic.1 + 1, stopped := true } else st
  else
    let st := if st.endIdx = none then { st with matchedSlash := false, endIdx := some (ic.1 + 1) }
              else st
    if ic.2 = '.' then
      if st.startDot = none then { st with startDot := some ic.1 }
      else if st.preDotState ≠ 1 then { st with preDotState := 1 }
      else st
    else if st.startDot ≠ none then { st with preDotState := -1 }
    else st

/-- Node's `path.extname(path)` (POSIX): the loop runs from the last character to the
first; the result is the part from the last `.` of the last path component to its end, and
`''` when there is none, when that `.` starts the component, or for the component `..`. -/
def extname (path : String) : String :=
  let st := path.toList.enum.reverse.foldl extnameStep
    { startDot := none, startPart := 0, endIdx := none, matchedSlash := true,
      preDotState := 0, stopped := false }
  match st.startDot, st.endIdx with
  | some startDot, some endIdx =>
    if st.preDotState = 0 ∨
        (st.preDotState = 1 ∧ startDot = endIdx - 1 ∧ startDot = st.startPart + 1) then ""
    else String.mk ((path.toList.drop startDot).take (endIdx - startDot))
  | _, _ => ""

/-- The call `s.toLowerCase()`, on the letters `A`-`Z`; no other character lowercases to a
letter of `jpeg|jpg|png|webp`. -/
def toLowerCase (s : String) : String :=
  String.mk (s.toList.map Char.toLower)

/-- The regular expression of a literal word `c` followed by `cs`. -/
def Regex.lit (c : Char) : List Char → Regex
  | [] => .chr c
  | d :: ds => .seq (.chr c) (Regex.lit d ds)

/-- The call `/r1|r2|.../.test(s)` without anchors: some alternative matches some
contiguous part of the string. -/
def Regex.searchAny (alts : List Regex) (s : String) : Bool :=
  alts.any (fun r =>
    (List.range (s.toList.length + 1)).any (fun i =>
      (List.range (s.toList.length - i + 1)).any (fun n =>
        r.matchesAll ((s.toList.drop i).take n))))

/-- The alternatives of `allowedTypes = /jpeg|jpg|png|webp/`. -/
def allowedTypes : List Regex :=
  [Regex.lit 'j' ['p', 'e', 'g'], Regex.lit 'j' ['p', 'g'], Regex.lit 'p' ['n', 'g'],
   Regex.lit 'w' ['e', 'b', 'p']]

/-- The `fileFilter` of the multer upload: `cb(null, true)` is `ok true`, and
`cb(new Error(message))` is `error message`. -/
def fileFilter (file : IncomingFile) : Except String Bool :=
  let extname := Regex.searchAny allowedTypes (toLowerCase (extname file.originalname))
  let mimetype := Regex.searchAny allowedTypes file.mimetype
  if extname && mimetype then
    .ok true
  else
    .error "Only image files are allowed"

/-- The words of `allowedTypes`. -/
def allowedWords : List (List Char) :=
  ["jpeg".toList, "jpg".toList, "png".toList, "webp".toList]

/-- The image extensions and MIME types of the four formats. -/
def imageFormats : List (String × String) :=
  [(".jpeg", "image/jpeg"), (".jpg", "image/jpeg"), (".png", "image/png"),
   (".webp", "image/webp")]

/-- The number of `addMintedNFT` calls in a sequence of method calls. -/
def mintCount : List Op → Nat
  | [] => 0
  | .addMintedNFT _ :: ops => mintCount ops + 1
  | _ :: ops => mintCount ops

/-! ## Concrete documents -/

/-- An `nft-holders` episode whose mirror is `[{ owner: '0.0.100' }]`. -/
def holdersEpisode : Episode :=
  { Episode.create "Issue 1" "comic-1" "creator-1" "0.0.5000" 1 with
    status := "published"
    mintedNFTs := [{ serialNumber := some 1, owner := some "0.0.100", mintedAt := some 1000,
                     transactionId := some "tx-1" }] }

/-- An episode capped at 10 with `currentSupply = 5` and `burned = 5`. -/
def cappedEpisode : Episode :=
  { holdersEpisode with supply := { maxSupply := 10, currentSupply := 5, burned := 5 } }

/-- An episode capped at 10 with `currentSupply = 5` and `burned = 3`. -/
def roomyEpisode : Episode :=
  { holdersEpisode with supply := { maxSupply := 10, currentSupply := 5, burned := 3 } }

/-- A recorded mint of serial number 6 for `'0.0.200'`. -/
def sampleMint : MintCall :=
  { serialNumber := some 6, owner := some "0.0.200", transactionId := some "tx-6",
    t1 := 2000, t2 := 2001 }

/-- The listings `[{price:5,active},{price:3,active},{price:10,cancelled}]`. -/
def sampleListings : List Listing :=
  [ { price := some 5, status := "active", listingType := "fixed-price" },
    { price := some 3, status := "active", listingType := "fixed-price" },
    { price := some 10, status := "cancelled", listingType := "fixed-price" } ]

/-- One active listing priced 3.0625 and one cancelled listing priced 1. -/
def finePricedListings : List Listing :=
  [ { price := some (49 / 16), status := "active", listingType := "fixed-price" },
    { price := some 1, status := "cancelled", listingType := "fixed-price" } ]

/-- Two active listings priced 0.0625 and 2. -/
def fineVolumeListings : List Listing :=
  [ { price := some (1 / 16), status := "active", listingType := "auction" },
    { price := some 2, status := "active", listingType := "fixed-price" } ]

/-- The number of records of `store` for `(userId, comicId)` with `episode = null`. -/
def wholeComicCount (store : List ReadHistory) (userId comicId : String) : Nat :=
  (store.filter (fun r => r.user == userId && r.comic == comicId && r.episode == none)).length

/-- A user with a linked wallet `'0.0.100'`. -/
def sampleUser : User :=
  { id := "user-1", wallet := some { accountId := some "0.0.100" } }

/-- A comic of 10 pages with one NFT record owned by `sampleUser`. -/
def sampleComic : Comic :=
  { _id := "comic-1", title := "Saga", pageCount := 10, nfts := [{ owner := "user-1" }],
    pages := ["page-1"], downloads := { cbz := some "saga.cbz", pdf := some "saga.pdf" } }

/-- A record of `sampleUser` for an episode of `sampleComic`. -/
def episodeRecord : ReadHistory :=
  { _id := 1, user := "user-1", userAccountId := "0.0.100", comic := "comic-1",
    episode := some "episode-1", accessType := "nft-owner",
    progress := { currentPage := some 3, totalPages := some 8, percentage := some 38,
                  completed := some false },
    lastAccessedAt := some 500 }

/-- A user without a wallet. -/
def walletlessUser : User :=
  { id := "user-2", wallet := none }

/-- A comic service that counts its calls in the state and always succeeds. -/
def countingService : ComicService Nat String String :=
  { createComic := fun _ n => (.ok "comic", n + 1)
    createEpisode := fun _ n => (.ok "episode", n + 1)
    mintEpisodeNFT := fun _ n => (.ok "minted", n + 1)
    verifyEpisodeAccess := fun _ _ _ n =>
      (.ok { hasAccess := true, message := none, content := "pages" }, n + 1) }

/-- A `createEpisode` request that is not multipart: it has a body and no `req.files`. -/
def plainEpisodeRequest : CreateEpisodeRequest String :=
  { comicId := "comic-1", title := "Issue 1", description := "", episodeNumber := "1",
    mintPrice := "5", readPrice := "1", maxSupply := "100", user := sampleUser,
    files := none }

/-- The files of a `createEpisode` request with a cover and two pages. -/
def fullEpisodeFiles : UploadedFiles :=
  { cover := some [{ path := "uploads/cover.png" }],
    pages := some [{ path := "uploads/p1.png" }, { path := "uploads/p2.png" }] }

/-- A `createEpisode` request with a cover and two pages. -/
def fullEpisodeRequest : CreateEpisodeRequest String :=
  { comicId := "comic-1", title := "Issue 1", description := "", episodeNumber := "1",
    mintPrice := "5", readPrice := "1", maxSupply := "100", user := sampleUser,
    files := some fullEpisodeFiles }

/-- A comic of 200 pages. -/
def longComic : Comic :=
  { _id := "comic-2", title := "Epic", pageCount := 200, nfts := [{ owner := "user-1" }],
    pages := ["page-1"], downloads := { cbz := none, pdf := none } }

/-- Two recorded mints around a read-counter increment and an access check. -/
def sampleOps : List Op :=
  [Op.addMintedNFT sampleMint, Op.incrementStats StatField.totalReads none,
   Op.canAccess (some "0.0.200"), Op.addMintedNFT sampleMint]

/-- A file named `archive.jpgz` that the client declares as `application/x-jpgz`. -/
def disguisedFile : IncomingFile :=
  { originalname := "archive.jpgz", mimetype := "application/x-jpgz" }

/-- The double `5e-7`. -/
def fiveE7 : ℚ := 4722366482869645 / 2 ^ 73

/-- A comic of one page. -/
def singlePageComic : Comic :=
  { _id := "comic-3", title := "Leaflet", pageCount := 1, nfts := [{ owner := "user-1" }],
    pages := ["page-1"], downloads := { cbz := none, pdf := none } }

/-- A comic of 40 pages. -/
def fortyPageComic : Comic :=
  { _id := "comic-4", title := "Forty", pageCount := 40, nfts := [{ owner := "user-1" }],
    pages := ["page-1"], downloads := { cbz := none, pdf := none } }

/-- Two active listings priced at the doubles `0.005` and `0.01`. -/
def centListings : List Listing :=
  [ { price := some (5764607523034235 / 2 ^ 60), status := "active",
      listingType := "fixed-price" },
    { price := some (5764607523034235 / 2 ^ 59), status := "active",
      listingType := "fixed-price" } ]

/-! ## Access control: `canAccess` -/

/-- C1: for an episode with `isFree = false` and `accessType = 'nft-holders'`, and every
account id `u`, `canAccess(u)` returns `true` (granted) exactly when some record of
`mintedNFTs` has `owner` equal to `u`, and returns `false` (denied) otherwise. -/
theorem canAccess_nft_holders (ep : Episode) (u : Option String)
    (hfree : ep.isFree = false) (htype : ep.accessType = "nft-holders") :
    ((ep.canAccess u).1 = JsVal.bool true ↔ ∃ nft ∈ ep.mintedNFTs, nft.owner = u) ∧
    ((¬ ∃ nft ∈ ep.mintedNFTs, nft.owner = u) → (ep.canAccess u).1 = JsVal.bool false) := by
  have hval : (ep.canAccess u).1 =
      JsVal.bool (ep.mintedNFTs.any (fun nft => nft.owner == u)) := by
    simp [Episode.canAccess, hfree, htype]
  rw [hval]
  constructor
  · constructor
    · intro h
      have h' : (ep.mintedNFTs.any (fun nft => nft.owner == u)) = true := by
        injection h
      simpa [List.any_eq_true] using h'
    · intro h
      have h' : (ep.mintedNFTs.any (fun nft => nft.owner == u)) = true := by
        simpa [List.any_eq_true] using h
      rw [h']
  · intro h
    have h' : (ep.mintedNFTs.any (fun nft => nft.owner == u)) = false := by
      rw [Bool.eq_false_iff]
      intro hc
      exact h (by simpa [List.any_eq_true] using hc)
    rw [h']

/-- C1, on the mirror `[{ owner: '0.0.100' }]`: `'0.0.100'` is granted and `'0.0.999'`
is denied. -/
theorem canAccess_nft_holders_witness :
    (holdersEpisode.canAccess (some "0.0.100")).1 = JsVal.bool true ∧
    (holdersEpisode.canAccess (some "0.0.999")).1 = JsVal.bool false :=
  ⟨(canAccess_nft_holders holdersEpisode (some "0.0.100") rfl rfl).1.2 (by decide),
   (canAccess_nft_holders holdersEpisode (some "0.0.999") rfl rfl).2 (by decide)⟩

/-- C2: for an episode with `isFree = true` or `accessType = 'free'`, `canAccess` returns
`true` (granted) for every account id, whatever `accessType` and `mintedNFTs` hold. -/
theorem canAccess_free (ep : Episode) (u : Option String)
    (h : ep.isFree = true ∨ ep.accessType = "free") :
    (ep.canAccess u).1 = JsVal.bool true := by
  rcases h with h | h <;> simp [Episode.canAccess, h]

/-- C2, on a free episode that is otherwise `paid` with an empty mirror, and on an episode
of access type `free`: an account that owns nothing is granted. -/
theorem canAccess_free_witness :
    ({ holdersEpisode with isFree := true, accessType := "paid", mintedNFTs := [] }.canAccess
        (some "0.0.999")).1 = JsVal.bool true ∧
    ({ holdersEpisode with accessType := "free", mintedNFTs := [] }.canAccess
        (some "0.0.999")).1 = JsVal.bool true :=
  ⟨canAccess_free _ _ (Or.inl rfl), canAccess_free _ _ (Or.inr rfl)⟩

/-- C3: for an episode with `isFree = false` and `accessType = 'public'`, `canAccess`
returns the string `'preview'` for every account id, never a boolean, also for an account
that is an owner in `mintedNFTs`. -/
theorem canAccess_public (ep : Episode) (u : Option String)
    (hfree : ep.isFree = false) (htype : ep.accessType = "public") :
    (ep.canAccess u).1 = JsVal.str "preview" ∧ ∀ b : Bool, (ep.canAccess u).1 ≠ JsVal.bool b := by
  have hval : (ep.canAccess u).1 = JsVal.str "preview" := by
    simp [Episode.canAccess, hfree, htype]
  refine ⟨hval, ?_⟩
  intro b hb
  rw [hval] at hb
  cases hb

/-- C3, on a public episode whose mirror holds `'0.0.100'`: the owner gets `'preview'`. -/
theorem canAccess_public_witness :
    ({ holdersEpisode with accessType := "public" }.canAccess (some "0.0.100")).1 =
      JsVal.str "preview" :=
  (canAccess_public { holdersEpisode with accessType := "public" } (some "0.0.100") rfl rfl).1

/-- C4: `canAccess` is read-only: the document after the call equals the document before
it, field for field, and a second call with the same account id returns the same value. -/
theorem canAccess_read_only (ep : Episode) (u : Option String) :
    (ep.canAccess u).2 = ep ∧ ((ep.canAccess u).2.canAccess u).1 = (ep.canAccess u).1 := by
  have h : (ep.canAccess u).2 = ep := by
    unfold Episode.canAccess
    split_ifs <;> rfl
  exact ⟨h, by rw [h]⟩

/-! ## Mint bookkeeping: `addMintedNFT` -/

theorem mint_supply (ep : Episode) (c : MintCall) :
    (ep.mint c).supply.maxSupply = ep.supply.maxSupply ∧
    (ep.mint c).supply.burned = ep.supply.burned ∧
    (ep.mint c).supply.currentSupply = ep.supply.currentSupply + 1 := by
  simp [Episode.mint, Episode.addMintedNFT]

theorem mintAll_supply (calls : List MintCall) (ep : Episode) :
    (ep.mintAll calls).supply.maxSupply = ep.supply.maxSupply ∧
    (ep.mintAll calls).supply.burned = ep.supply.burned ∧
    (ep.mintAll calls).supply.currentSupply = ep.supply.currentSupply + calls.length := by
  induction calls generalizing ep with
  | nil => simp [Episode.mintAll]
  | cons c cs ih =>
    have h := ih (ep.mint c)
    have hc := mint_supply ep c
    simp only [Episode.mintAll, List.foldl_cons] at h ⊢
    refine ⟨h.1.trans hc.1, h.2.1.trans hc.2.1, ?_⟩
    rw [h.2.2, hc.2.2, List.length_cons]
    push_cast
    ring

/-- C5, as stated, fails: the episode with `maxSupply = 10`, `currentSupply = 5`,
`burned = 5` satisfies `currentSupply + burned <= maxSupply`, and after one recorded mint
it has `6 + 5 > 10`. -/
theorem mintAll_exceeds_cap :
    0 < cappedEpisode.supply.maxSupply ∧ cappedEpisode.supplyWithinCap ∧
    ¬ (cappedEpisode.mintAll [sampleMint]).supplyWithinCap := by
  norm_num [cappedEpisode, Episode.supplyWithinCap, Episode.mintAll, Episode.mint,
    Episode.addMintedNFT]

/-- C5, amended: for an episode with `maxSupply > 0`, a sequence of `n` mints recorded
through `addMintedNFT` leaves `maxSupply` (still positive) and `burned` as they were and
adds `n` to `currentSupply`; so `currentSupply + burned <= maxSupply` holds afterwards
exactly when `currentSupply + n + burned <= maxSupply` held before the sequence. -/
theorem mintAll_supplyWithinCap_iff (ep : Episode) (calls : List MintCall)
    (hmax : 0 < ep.supply.maxSupply) :
    0 < (ep.mintAll calls).supply.maxSupply ∧
    (ep.mintAll calls).supply.maxSupply = ep.supply.maxSupply ∧
    (ep.mintAll calls).supply.burned = ep.supply.burned ∧
    (ep.mintAll calls).supply.currentSupply = ep.supply.currentSupply + calls.length ∧
    ((ep.mintAll calls).supplyWithinCap ↔
      ep.supply.currentSupply + calls.length + ep.supply.burned ≤ ep.supply.maxSupply) := by
  obtain ⟨h1, h2, h3⟩ := mintAll_supply calls ep
  refine ⟨by rw [h1]; exact hmax, h1, h2, h3, ?_⟩
  unfold Episode.supplyWithinCap
  rw [h1, h2, h3]

/-- C5, amended, on the episode with `maxSupply = 10`, `currentSupply = 5`, `burned = 3`:
two recorded mints keep `currentSupply + burned <= maxSupply`. -/
theorem mintAll_supplyWithinCap_iff_witness :
    (roomyEpisode.mintAll [sampleMint, sampleMint]).supplyWithinCap :=
  (mintAll_supplyWithinCap_iff roomyEpisode [sampleMint, sampleMint]
    (by norm_num [roomyEpisode])).2.2.2.2.2 (by norm_num [roomyEpisode])

/-- C6: one call of `addMintedNFT(serialNumber, owner, transactionId)` appends exactly one
record with that serial number, owner and transaction id, stamped with the first clock
reading of the call, at the end of `mintedNFTs`; adds exactly 1 to `supply.currentSupply`
and to the number held by `stats.totalMinted`; sets `lastMintedAt` to the second clock
reading of the call; and leaves `supply.maxSupply`, `supply.burned`, the other `stats`
counters, `mintingRules`, `status` and `accessType` unchanged. -/
theorem addMintedNFT_effect (ep : Episode) (serialNumber : Option ℚ) (owner : Option String)
    (transactionId : Option String) (t1 t2 : Nat) :
    (ep.addMintedNFT serialNumber owner transactionId t1 t2).mintedNFTs =
      ep.mintedNFTs ++ [{ serialNumber := serialNumber, owner := owner, mintedAt := some t1,
                          transactionId := transactionId }] ∧
    (ep.addMintedNFT serialNumber owner transactionId t1 t2).mintedNFTs.length =
      ep.mintedNFTs.length + 1 ∧
    (ep.addMintedNFT serialNumber owner transactionId t1 t2).supply.currentSupply =
      ep.supply.currentSupply + 1 ∧
    (ep.addMintedNFT serialNumber owner transactionId t1 t2).stats.totalMinted =
      ep.stats.totalMinted.map (fun m => m + 1) ∧
    (ep.addMintedNFT serialNumber owner transactionId t1 t2).lastMintedAt = some t2 ∧
    (ep.addMintedNFT serialNumber owner transactionId t1 t2).supply.maxSupply =
      ep.supply.maxSupply ∧
    (ep.addMintedNFT serialNumber owner transactionId t1 t2).supply.burned =
      ep.supply.burned ∧
    (∀ f : StatField, f ≠ StatField.totalMinted →
      (ep.addMintedNFT serialNumber owner transactionId t1 t2).stats.get f = ep.stats.get f) ∧
    (ep.addMintedNFT serialNumber owner transactionId t1 t2).mintingRules = ep.mintingRules ∧
    (ep.addMintedNFT serialNumber owner transactionId t1 t2).status = ep.status ∧
    (ep.addMintedNFT serialNumber owner transactionId t1 t2).accessType = ep.accessType := by
  refine ⟨rfl, by simp [Episode.addMintedNFT], rfl, rfl, rfl, rfl, rfl, ?_, rfl, rfl, rfl⟩
  intro f hf
  cases f <;> first | rfl | exact absurd rfl hf

/-- C6, on the schema defaults: the first recorded mint gives `currentSupply = 1` and
`totalMinted = 1`, and leaves `totalReads` at 0. -/
theorem addMintedNFT_effect_witness :
    ((Episode.create "Issue 1" "comic-1" "creator-1" "0.0.5000" 1).addMintedNFT
        (some 1) (some "0.0.100") (some "tx-1") 1000 1001).supply.currentSupply = 1 ∧
    ((Episode.create "Issue 1" "comic-1" "creator-1" "0.0.5000" 1).addMintedNFT
        (some 1) (some "0.0.100") (some "tx-1") 1000 1001).stats.totalMinted = some 1 ∧
    ((Episode.create "Issue 1" "comic-1" "creator-1" "0.0.5000" 1).addMintedNFT
        (some 1) (some "0.0.100") (some "tx-1") 1000 1001).stats.get StatField.totalReads =
      some 0 := by
  have h := addMintedNFT_effect (Episode.create "Issue 1" "comic-1" "creator-1" "0.0.5000" 1)
    (some 1) (some "0.0.100") (some "tx-1") 1000 1001
  refine ⟨?_, ?_, h.2.2.2.2.2.2.2.1 StatField.totalReads (by decide)⟩
  · rw [h.2.2.1]
    norm_num [Episode.create]
  · rw [h.2.2.2.1]
    norm_num [Episode.create]

/-! ## The mirror is append-only -/

theorem step_keeps_mintedNFTs (ep : Episode) (op : Op) :
    ep.mintedNFTs <+: (ep.step op).mintedNFTs := by
  cases op with
  | canAccess u =>
    have h : (ep.canAccess u).2 = ep := by
      unfold Episode.canAccess
      split_ifs <;> rfl
    simp [Episode.step, h]
  | addMintedNFT c =>
    simp [Episode.step, Episode.mint, Episode.addMintedNFT]
  | incrementStats f v =>
    simp [Episode.step, Episode.incrementStats]

theorem run_keeps_mintedNFTs (ops : List Op) (ep : Episode) :
    ep.mintedNFTs <+: (ep.run ops).mintedNFTs := by
  induction ops generalizing ep with
  | nil => simp [Episode.run]
  | cons op rest ih =>
    have h := ih (ep.step op)
    simp only [Episode.run, List.foldl_cons] at h ⊢
    exact (step_keeps_mintedNFTs ep op).trans h

/-- C7: the mirror is append-only under every Episode method: after `addMintedNFT` the new
`mintedNFTs` is the previous one followed by one record (the previous sequence is a
prefix, the length grows by one); `canAccess` and `incrementStats` leave `mintedNFTs`
unchanged; so after any finite sequence of method calls the sequence held before is a
prefix of the sequence held after: no record is removed, reordered or rewritten. -/
theorem mintedNFTs_append_only (ep : Episode) :
    (∀ c : MintCall,
      (∃ r : MintedNFT, (ep.mint c).mintedNFTs = ep.mintedNFTs ++ [r]) ∧
      ep.mintedNFTs <+: (ep.mint c).mintedNFTs ∧
      (ep.mint c).mintedNFTs.length = ep.mintedNFTs.length + 1) ∧
    (∀ u : Option String, (ep.canAccess u).2.mintedNFTs = ep.mintedNFTs) ∧
    (∀ (f : StatField) (v : Option ℚ), (ep.incrementStats f v).mintedNFTs = ep.mintedNFTs) ∧
    (∀ ops : List Op,
      ep.mintedNFTs <+: (ep.run ops).mintedNFTs ∧
      ∀ (i : Nat) (r : MintedNFT), ep.mintedNFTs[i]? = some r →
        (ep.run ops).mintedNFTs[i]? = some r) := by
  refine ⟨?_, ?_, ?_, ?_⟩
  · intro c
    exact ⟨⟨_, rfl⟩, by simp [Episode.mint, Episode.addMintedNFT],
      by simp [Episode.mint, Episode.addMintedNFT]⟩
  · intro u
    unfold Episode.canAccess
    split_ifs <;> rfl
  · intro f v
    rfl
  · intro ops
    refine ⟨run_keeps_mintedNFTs ops ep, ?_⟩
    intro i r hi
    obtain ⟨t, ht⟩ := run_keeps_mintedNFTs ops ep
    rw [← ht]
    have hlt : i < ep.mintedNFTs.length := by
      by_contra hge
      rw [List.getElem?_eq_none (by omega)] at hi
      cases hi
    rw [List.getElem?_append_left hlt]
    exact hi

/-! ## Counters: `incrementStats` -/

theorem jsOrZero_eq_getD (x : Option ℚ) : jsOrZero x = x.getD 0 := by
  cases x with
  | none => rfl
  | some q =>
    by_cases h : q = 0 <;> simp [jsOrZero, h]

theorem Stats.get_set (s : Stats) (f g : StatField) (v : Option ℚ) :
    (s.set f v).get g = if g = f then v else s.get g := by
  cases f <;> cases g <;> simp [Stats.get, Stats.set]

/-- C8: `incrementStats(f, d)` sets `stats[f]` to its previous value (0 when the counter
holds no number) plus `d`, with `d = 1` when the call gives no delta, and leaves every
other `stats` counter, `supply` and `mintedNFTs` unchanged. -/
theorem incrementStats_effect (ep : Episode) (f : StatField) :
    (∀ d : ℚ, (ep.incrementStats f (some d)).stats.get f = some ((ep.stats.get f).getD 0 + d)) ∧
    (ep.incrementStats f none).stats.get f = some ((ep.stats.get f).getD 0 + 1) ∧
    (∀ (value : Option ℚ) (g : StatField), g ≠ f →
      (ep.incrementStats f value).stats.get g = ep.stats.get g) ∧
    (∀ value : Option ℚ, (ep.incrementStats f value).supply = ep.supply) ∧
    (∀ value : Option ℚ, (ep.incrementStats f value).mintedNFTs = ep.mintedNFTs) := by
  refine ⟨?_, ?_, ?_, ?_, ?_⟩
  · intro d
    simp [Episode.incrementStats, Stats.get_set, jsOrZero_eq_getD]
  · simp [Episode.incrementStats, Stats.get_set, jsOrZero_eq_getD]
  · intro value g hg
    simp [Episode.incrementStats, Stats.get_set, hg]
  · intro value
    rfl
  · intro value
    rfl

/-! ## Double-precision arithmetic: rounding lemmas -/

theorem roundHalfEven_eq (y : ℚ) (m : ℤ) (h1 : (m : ℚ) - 1 / 2 < y) (h2 : y < m + 1 / 2) :
    roundHalfEven y = m := by
  have hfl : ⌊y + 1 / 2⌋ = m := by
    rw [Int.floor_eq_iff]
    constructor <;> linarith
  unfold roundHalfEven
  simp only [hfl]
  rw [if_neg]
  rintro ⟨htie, -⟩
  linarith

theorem roundHalfEven_intCast (n : ℤ) : roundHalfEven (n : ℚ) = n :=
  roundHalfEven_eq _ n (by linarith) (by linarith)

theorem roundHalfEven_le (y : ℚ) (n : ℤ) (h : y ≤ n) : roundHalfEven y ≤ n := by
  have hfl : ⌊y + 1 / 2⌋ ≤ n := by
    have : ⌊y + 1 / 2⌋ < n + 1 := by
      rw [Int.floor_lt]
      push_cast
      linarith
    omega
  unfold roundHalfEven
  simp only
  split_ifs <;> omega

theorem roundHalfEven_ge (y : ℚ) (n : ℤ) (h : (n : ℚ) ≤ y) : n ≤ roundHalfEven y := by
  have hfl : n ≤ ⌊y + 1 / 2⌋ := by
    rw [Int.le_floor]
    linarith
  unfold roundHalfEven
  simp only
  split_ifs with htie
  · have hne : ⌊y + 1 / 2⌋ ≠ n := by
      intro heq
      rw [heq] at htie
      linarith [htie.1]
    omega
  · exact hfl

theorem doubleExponent_eq (x : ℚ) (e : ℤ) (h1 : (2 : ℚ) ^ e ≤ |x|) (h2 : |x| < (2 : ℚ) ^ (e + 1))
    (hmin : -1022 ≤ e) : doubleExponent x = e := by
  have hpos : 0 < |x| := lt_of_lt_of_le (zpow_pos (by norm_num) e) h1
  have hlog : Int.log 2 |x| = e := by
    have ha : e ≤ Int.log 2 |x| := (Int.zpow_le_iff_le_log (by norm_num) hpos).mp (by exact_mod_cast h1)
    have hb : Int.log 2 |x| < e + 1 := (Int.lt_zpow_iff_log_lt (by norm_num) hpos).mp (by exact_mod_cast h2)
    omega
  unfold doubleExponent
  rw [hlog]
  exact max_eq_left hmin

theorem toDouble_eq (x u : ℚ) (e m : ℤ) (h1 : (2 : ℚ) ^ e ≤ |x|) (h2 : |x| < (2 : ℚ) ^ (e + 1))
    (hmin : -1022 ≤ e) (hu : (2 : ℚ) ^ (e - 52) = u)
    (hlo : (m : ℚ) - 1 / 2 < x / u) (hhi : x / u < m + 1 / 2)
    (hfin : |(m : ℚ) * u| < 2 ^ 1024) : toDouble x = some (m * u) := by
  unfold toDouble
  simp only [doubleExponent_eq x e h1 h2 hmin, hu, roundHalfEven_eq _ m hlo hhi]
  rw [if_neg (not_le.mpr hfin)]

theorem toDouble_eq_pos (x u : ℚ) (e m : ℤ) (hx : 0 < x) (h1 : (2 : ℚ) ^ e ≤ x)
    (h2 : x < (2 : ℚ) ^ (e + 1)) (hmin : -1022 ≤ e) (hu : (2 : ℚ) ^ (e - 52) = u)
    (hlo : (m : ℚ) - 1 / 2 < x / u) (hhi : x / u < m + 1 / 2) (hm : 0 ≤ m)
    (hfin : (m : ℚ) * u < 2 ^ 1024) : toDouble x = some (m * u) := by
  have hupos : 0 < u := by rw [← hu]; exact zpow_pos (by norm_num) _
  have hmu : 0 ≤ (m : ℚ) * u := mul_nonneg (by exact_mod_cast hm) (le_of_lt hupos)
  exact toDouble_eq x u e m (by rw [abs_of_pos hx]; exact h1) (by rw [abs_of_pos hx]; exact h2)
    hmin hu hlo hhi (by rw [abs_of_nonneg hmu]; exact hfin)

theorem toDouble_natCast (n : ℕ) (hn : n < 2 ^ 53) : toDouble (n : ℚ) = some (n : ℚ) := by
  have hexp : doubleExponent (n : ℚ) ≤ 52 := by
    unfold doubleExponent
    apply max_le _ (by norm_num)
    rw [abs_of_nonneg (Nat.cast_nonneg n), Int.log_natCast]
    have : Nat.log 2 n < 53 := by
      rcases Nat.eq_zero_or_pos n with h0 | h0
      · simp [h0]
      · exact Nat.log_lt_of_lt_pow (by omega) hn
    omega
  obtain ⟨k, hk⟩ : ∃ k : ℕ, doubleExponent (n : ℚ) - 52 = -(k : ℤ) :=
    ⟨(52 - doubleExponent (n : ℚ)).toNat, by omega⟩
  have hulp : (2 : ℚ) ^ (doubleExponent (n : ℚ) - 52) = 1 / 2 ^ k := by
    rw [hk, zpow_neg, zpow_natCast, one_div]
  have hdiv : (n : ℚ) / (1 / 2 ^ k) = ((n * 2 ^ k : ℕ) : ℤ) := by
    push_cast
    field_simp
  have hlt : (n : ℚ) < 2 ^ 1024 := by
    have h53 : (n : ℚ) < 2 ^ 53 := by exact_mod_cast hn
    have : (2 : ℚ) ^ 53 ≤ 2 ^ 1024 := by norm_num
    linarith
  unfold toDouble
  simp only [hulp, hdiv, roundHalfEven_intCast]
  have hval : (((n * 2 ^ k : ℕ) : ℤ) : ℚ) * (1 / 2 ^ k) = (n : ℚ) := by
    push_cast
    field_simp
  rw [hval, abs_of_nonneg (Nat.cast_nonneg n), if_neg (not_le.mpr hlt)]

theorem toDouble_bounds (x : ℚ) (N : ℕ) (h0 : 0 ≤ x) (hN : x ≤ N) (h53 : N < 2 ^ 53) :
    ∃ r : ℚ, toDouble x = some r ∧ 0 ≤ r ∧ r ≤ N := by
  have hexp : doubleExponent x ≤ 52 := by
    unfold doubleExponent
    apply max_le _ (by norm_num)
    rw [abs_of_nonneg h0]
    rcases eq_or_lt_of_le h0 with hz | hpos
    · rw [← hz, Int.log_zero_right]
      norm_num
    · have hlt : x < ((2 : ℕ) : ℚ) ^ (53 : ℤ) := by
        have : (N : ℚ) < 2 ^ 53 := by exact_mod_cast h53
        have h2 : ((2 : ℕ) : ℚ) ^ (53 : ℤ) = 2 ^ 53 := by norm_num
        rw [h2]
        linarith
      have := (Int.lt_zpow_iff_log_lt (by norm_num) hpos).mp hlt
      omega
  obtain ⟨k, hk⟩ : ∃ k : ℕ, doubleExponent x - 52 = -(k : ℤ) :=
    ⟨(52 - doubleExponent x).toNat, by omega⟩
  have hulp : (2 : ℚ) ^ (doubleExponent x - 52) = 1 / 2 ^ k := by
    rw [hk, zpow_neg, zpow_natCast, one_div]
  have hupos : (0 : ℚ) < 1 / 2 ^ k := by positivity
  have hy0 : (0 : ℚ) ≤ x / (1 / 2 ^ k) := div_nonneg h0 (le_of_lt hupos)
  have hyN : x / (1 / 2 ^ k) ≤ (((N * 2 ^ k : ℕ) : ℤ) : ℚ) := by
    push_cast
    rw [div_le_iff₀ hupos]
    have : (N : ℚ) * 2 ^ k * (1 / 2 ^ k) = N := by field_simp
    rw [this]
    exact hN
  have hr0 : (0 : ℤ) ≤ roundHalfEven (x / (1 / 2 ^ k)) :=
    roundHalfEven_ge _ 0 (by simpa using hy0)
  have hrN : roundHalfEven (x / (1 / 2 ^ k)) ≤ ((N * 2 ^ k : ℕ) : ℤ) :=
    roundHalfEven_le _ _ hyN
  have hv0 : (0 : ℚ) ≤ (roundHalfEven (x / (1 / 2 ^ k)) : ℚ) * (1 / 2 ^ k) :=
    mul_nonneg (by exact_mod_cast hr0) (le_of_lt hupos)
  have hvN : (roundHalfEven (x / (1 / 2 ^ k)) : ℚ) * (1 / 2 ^ k) ≤ N := by
    have h1 : (roundHalfEven (x / (1 / 2 ^ k)) : ℚ) ≤ (((N * 2 ^ k : ℕ) : ℤ) : ℚ) := by
      exact_mod_cast hrN
    have h2 : (((N * 2 ^ k : ℕ) : ℤ) : ℚ) * (1 / 2 ^ k) = N := by
      push_cast
      field_simp
    calc (roundHalfEven (x / (1 / 2 ^ k)) : ℚ) * (1 / 2 ^ k)
        ≤ (((N * 2 ^ k : ℕ) : ℤ) : ℚ) * (1 / 2 ^ k) :=
          mul_le_mul_of_nonneg_right h1 (le_of_lt hupos)
      _ = N := h2
  have hfin : (roundHalfEven (x / (1 / 2 ^ k)) : ℚ) * (1 / 2 ^ k) < 2 ^ 1024 := by
    have h53' : (N : ℚ) < 2 ^ 53 := by exact_mod_cast h53
    have : (2 : ℚ) ^ 53 ≤ 2 ^ 1024 := by norm_num
    linarith
  refine ⟨(roundHalfEven (x / (1 / 2 ^ k)) : ℚ) * (1 / 2 ^ k), ?_, hv0, hvN⟩
  unfold toDouble
  simp only [hulp]
  rw [abs_of_nonneg hv0, if_neg (not_le.mpr hfin)]

theorem roundHalfEven_tie_even (k : ℤ) (hk : k % 2 = 0) :
    roundHalfEven ((k : ℚ) + 1 / 2) = k := by
  have hfl : ⌊(k : ℚ) + 1 / 2 + 1 / 2⌋ = k + 1 := by
    rw [Int.floor_eq_iff]
    push_cast
    constructor <;> linarith
  unfold roundHalfEven
  simp only [hfl]
  rw [if_pos]
  · omega
  · constructor
    · push_cast
      ring
    · omega

theorem toDouble_tie_even_pos (x u : ℚ) (e m : ℤ) (hx : 0 < x) (h1 : (2 : ℚ) ^ e ≤ x)
    (h2 : x < (2 : ℚ) ^ (e + 1)) (hmin : -1022 ≤ e) (hu : (2 : ℚ) ^ (e - 52) = u)
    (htie : x / u = (m : ℚ) + 1 / 2) (heven : m % 2 = 0) (hm : 0 ≤ m)
    (hfin : (m : ℚ) * u < 2 ^ 1024) : toDouble x = some (m * u) := by
  have hupos : 0 < u := by rw [← hu]; exact zpow_pos (by norm_num) _
  have hmu : 0 ≤ (m : ℚ) * u := mul_nonneg (by exact_mod_cast hm) (le_of_lt hupos)
  unfold toDouble
  simp only [doubleExponent_eq x e (by rw [abs_of_pos hx]; exact h1)
    (by rw [abs_of_pos hx]; exact h2) hmin, hu, htie, roundHalfEven_tie_even m heven]
  rw [abs_of_nonneg hmu, if_neg (not_le.mpr hfin)]

theorem mathRound_eq (x : ℚ) (k : ℤ) (h1 : (k : ℚ) ≤ x + 1 / 2) (h2 : x + 1 / 2 < k + 1) :
    mathRound x = k := by
  unfold mathRound
  rw [Int.floor_eq_iff.mpr ⟨h1, h2⟩]

theorem percentageOf_eval (c p q d : ℚ) (hp : p ≠ 0) (hq : toDouble (c / p) = some q)
    (hd : toDouble (q * 100) = some d) : percentageOf (some c) p = some (mathRound d) := by
  simp [percentageOf, hp, hq, hd]

theorem log10_eq (x : ℚ) (e : ℤ) (hx : 0 < x) (h1 : (10 : ℚ) ^ e ≤ x)
    (h2 : x < (10 : ℚ) ^ (e + 1)) : Int.log 10 x = e := by
  have ha : e ≤ Int.log 10 x :=
    (Int.zpow_le_iff_le_log (by norm_num) hx).mp (by exact_mod_cast h1)
  have hb : Int.log 10 x < e + 1 :=
    (Int.lt_zpow_iff_log_lt (by norm_num) hx).mp (by exact_mod_cast h2)
  omega

theorem leadingDigit_next (x p10 : ℚ) (e10 d : ℤ) (hlog : Int.log 10 x = e10)
    (hp10 : (10 : ℚ) ^ e10 = p10) (hfloor : ⌊x / p10⌋ = d)
    (hnext : toDouble (((d + 1 : ℤ) : ℚ) * p10) = some x) (hne : d + 1 ≠ 10) :
    leadingDigit x = ((d + 1 : ℤ) : ℚ) := by
  unfold leadingDigit
  simp only [hlog, hp10, hfloor, hnext, if_true, if_neg hne]

theorem doubleSum_natCast (ns : List ℕ) (a : ℕ) (h : a + ns.sum < 2 ^ 53) :
    (ns.map (fun n : ℕ => (n : ℚ))).foldl (fun sum x => sum.bind (fun s => toDouble (s + x)))
      (some (a : ℚ)) = some ((a + ns.sum : ℕ) : ℚ) := by
  induction ns generalizing a with
  | nil => simp
  | cons n rest ih =>
    have hstep : toDouble ((a : ℚ) + (n : ℚ)) = some ((a + n : ℕ) : ℚ) := by
      have := toDouble_natCast (a + n) (by simp only [List.sum_cons] at h; omega)
      simpa using this
    simp only [List.map_cons, List.foldl_cons, Option.some_bind, hstep]
    rw [ih (a + n) (by simp only [List.sum_cons] at h; omega)]
    simp only [List.sum_cons, Nat.add_assoc]

theorem mathRound_intCast (k : ℤ) : mathRound (k : ℚ) = (k : ℚ) := by
  unfold mathRound
  have h : ⌊(k : ℚ) + 1 / 2⌋ = k := by
    rw [Int.floor_eq_iff]
    constructor <;> linarith
  rw [h]

theorem mathRound_bounds (x : ℚ) (h0 : 0 ≤ x) (h100 : x ≤ 100) :
    0 ≤ mathRound x ∧ mathRound x ≤ 100 := by
  unfold mathRound
  have hlo : (0 : ℤ) ≤ ⌊x + 1 / 2⌋ := Int.floor_nonneg.mpr (by linarith)
  have hhi : ⌊x + 1 / 2⌋ < 101 := by
    rw [Int.floor_lt]
    push_cast
    linarith
  have hhi' : ⌊x + 1 / 2⌋ ≤ 100 := by omega
  constructor
  · exact_mod_cast hlo
  · exact_mod_cast hhi'

theorem roundHalfEven_near (y : ℚ) : |(roundHalfEven y : ℚ) - y| ≤ 1 / 2 := by
  have h1 : ((⌊y + 1 / 2⌋ : ℤ) : ℚ) ≤ y + 1 / 2 := Int.floor_le _
  have h2 : y + 1 / 2 < ((⌊y + 1 / 2⌋ : ℤ) : ℚ) + 1 := Int.lt_floor_add_one _
  unfold roundHalfEven
  simp only
  split_ifs with htie
  · rw [abs_le]
    push_cast
    constructor <;> linarith [htie.1]
  · rw [abs_le]
    constructor <;> linarith

theorem toDouble_zero : toDouble 0 = some 0 := by
  have h := toDouble_natCast 0 (by norm_num)
  simpa using h

theorem toDouble_near (x : ℚ) (k : ℕ) (h0 : 0 ≤ x) (hx : x < 2 ^ k) (hk : k ≤ 52) :
    ∃ r : ℚ, toDouble x = some r ∧ 0 ≤ r ∧ |r - x| ≤ 2 ^ k / 2 ^ 54 := by
  rcases eq_or_lt_of_le h0 with hz | hpos
  · refine ⟨0, by rw [← hz]; exact toDouble_zero, le_refl 0, ?_⟩
    rw [← hz]
    simp only [sub_zero, abs_zero]
    positivity
  · have hpow : 2 ^ k < 2 ^ 53 := Nat.pow_lt_pow_right (by norm_num) (by omega)
    obtain ⟨r, hr, hr0, -⟩ :=
      toDouble_bounds x (2 ^ k) h0 (by push_cast; exact le_of_lt hx) hpow
    refine ⟨r, hr, hr0, ?_⟩
    have hlog : Int.log 2 x < (k : ℤ) :=
      (Int.lt_zpow_iff_log_lt (by norm_num) hpos).mp (by push_cast; exact_mod_cast hx)
    have hexp : doubleExponent x ≤ (k : ℤ) - 1 := by
      unfold doubleExponent
      rw [abs_of_pos hpos]
      apply max_le <;> omega
    have hexp2 : -1022 ≤ doubleExponent x := le_max_right _ _
    obtain ⟨j, hj⟩ : ∃ j : ℕ, doubleExponent x - 52 = -(j : ℤ) :=
      ⟨(52 - doubleExponent x).toNat, by omega⟩
    have hjk : 54 ≤ k + (j + 1) := by omega
    have hulp : (2 : ℚ) ^ (doubleExponent x - 52) = 1 / 2 ^ j := by
      rw [hj, zpow_neg, zpow_natCast, one_div]
    unfold toDouble at hr
    simp only [hulp] at hr
    split_ifs at hr
    injection hr with hr
    rw [← hr]
    have hupos : (0 : ℚ) < 1 / 2 ^ j := by positivity
    have hnear := roundHalfEven_near (x / (1 / 2 ^ j))
    have hsplit : (roundHalfEven (x / (1 / 2 ^ j)) : ℚ) * (1 / 2 ^ j) - x =
        ((roundHalfEven (x / (1 / 2 ^ j)) : ℚ) - x / (1 / 2 ^ j)) * (1 / 2 ^ j) := by
      field_simp
      ring
    rw [hsplit, abs_mul, abs_of_pos hupos]
    have hp : (2 : ℚ) ^ 54 ≤ 2 ^ k * (2 ^ j * 2) := by
      rw [← pow_succ, ← pow_add]
      exact pow_le_pow_right₀ (by norm_num) hjk
    have hhalf : (1 : ℚ) / 2 * (1 / 2 ^ j) ≤ 2 ^ k / 2 ^ 54 := by
      have he : (1 : ℚ) / 2 * (1 / 2 ^ j) = 1 / (2 ^ j * 2) := by
        field_simp
        ring
      rw [he, div_le_div_iff₀ (by positivity) (by positivity), one_mul]
      exact hp
    exact le_trans (mul_le_mul_of_nonneg_right hnear (le_of_lt hupos)) hhalf

theorem percentageOf_near (c p : ℚ) (hp : 0 < p) (h0 : 0 ≤ c) (hc : c ≤ p) :
    ∃ k : ℤ, percentageOf (some c) p = some (k : ℚ) ∧ 0 ≤ k ∧ k ≤ 100 ∧
      |(k : ℚ) - c / p * 100| ≤ 1 / 2 + 1 / 2 ^ 45 := by
  have hx0 : 0 ≤ c / p := div_nonneg h0 (le_of_lt hp)
  have hx1 : c / p ≤ 1 := (div_le_one hp).mpr hc
  obtain ⟨q, hq, hq0, hq1⟩ := toDouble_bounds (c / p) 1 hx0 (by simpa using hx1) (by norm_num)
  obtain ⟨q', hq', -, hqn⟩ := toDouble_near (c / p) 1 hx0 (by linarith) (by norm_num)
  rw [hq] at hq'
  injection hq' with hq'
  rw [← hq'] at hqn
  have hq1' : q ≤ 1 := by simpa using hq1
  have hy0 : 0 ≤ q * 100 := by linarith
  have hy100 : q * 100 ≤ ((100 : ℕ) : ℚ) := by
    push_cast
    linarith
  obtain ⟨d, hd, hd0, hd100⟩ := toDouble_bounds (q * 100) 100 hy0 hy100 (by norm_num)
  obtain ⟨d', hd', -, hdn⟩ := toDouble_near (q * 100) 7 hy0 (by linarith) (by norm_num)
  rw [hd] at hd'
  injection hd' with hd'
  rw [← hd'] at hdn
  have hd100' : d ≤ 100 := by simpa using hd100
  obtain ⟨hb0, hb100⟩ := mathRound_bounds d hd0 hd100'
  unfold mathRound at hb0 hb100
  have hfl1 : ((⌊d + 1 / 2⌋ : ℤ) : ℚ) ≤ d + 1 / 2 := Int.floor_le _
  have hfl2 : d + 1 / 2 < ((⌊d + 1 / 2⌋ : ℤ) : ℚ) + 1 := Int.lt_floor_add_one _
  refine ⟨⌊d + 1 / 2⌋, percentageOf_eval c p q d (ne_of_gt hp) hq hd, ?_, ?_, ?_⟩
  · exact_mod_cast hb0
  · exact_mod_cast hb100
  · rw [abs_le] at hqn hdn ⊢
    have e1 : (2 : ℚ) ^ 1 / 2 ^ 54 = 2 / 2 ^ 54 := by norm_num
    have e2 : (2 : ℚ) ^ 7 / 2 ^ 54 = 128 / 2 ^ 54 := by norm_num
    have e3 : (1 : ℚ) / 2 ^ 45 = 512 / 2 ^ 54 := by norm_num
    rw [e1] at hqn
    rw [e2] at hdn
    rw [e3]
    constructor <;> linarith [hqn.1, hqn.2, hdn.1, hdn.2]

theorem percentageOf_round (c p : ℚ) (hp : 0 < p) (h0 : 0 ≤ c) (hc : c ≤ p) (m : ℤ)
    (hm : |c / p * 100 - (m : ℚ)| < 1 / 2 - 1 / 2 ^ 45) :
    percentageOf (some c) p = some (m : ℚ) := by
  obtain ⟨k, hk, -, -, hnear⟩ := percentageOf_near c p hp h0 hc
  rw [abs_le] at hnear
  rw [abs_lt] at hm
  have h1 : ((k - m : ℤ) : ℚ) < 1 := by
    push_cast
    linarith [hnear.2, hm.1]
  have h2 : (-1 : ℚ) < ((k - m : ℤ) : ℚ) := by
    push_cast
    linarith [hnear.1, hm.2]
  have h1' : k - m < 1 := by exact_mod_cast h1
  have h2' : -1 < k - m := by exact_mod_cast h2
  have hkm : k = m := by omega
  rw [hk, hkm]

theorem percentageOf_full (p : ℚ) (hp : 0 < p) : percentageOf (some p) p = some 100 := by
  have hq : toDouble (p / p) = some 1 := by
    rw [div_self (ne_of_gt hp)]
    have h := toDouble_natCast 1 (by norm_num)
    simpa using h
  have hd : toDouble ((1 : ℚ) * 100) = some 100 := by
    have h := toDouble_natCast 100 (by norm_num)
    simpa using h
  rw [percentageOf_eval p p 1 100 (ne_of_gt hp) hq hd]
  have h := mathRound_intCast 100
  simpa using h

theorem doubleSum_near (k : ℕ) (hk : k ≤ 52) (xs : List ℚ) (a : ℚ) (ha : 0 ≤ a)
    (hxs : ∀ x ∈ xs, 0 ≤ x)
    (hlt : a + xs.sum + (xs.length : ℚ) * (2 ^ k / 2 ^ 54) < 2 ^ k) :
    ∃ r : ℚ,
      xs.foldl (fun sum x => sum.bind (fun s => toDouble (s + x))) (some a) = some r ∧
      0 ≤ r ∧ |r - (a + xs.sum)| ≤ (xs.length : ℚ) * (2 ^ k / 2 ^ 54) := by
  induction xs generalizing a with
  | nil => exact ⟨a, rfl, ha, by simp⟩
  | cons x rest ih =>
    have hx0 : 0 ≤ x := hxs x (List.mem_cons_self x rest)
    have hrest : ∀ y ∈ rest, 0 ≤ y := fun y hy => hxs y (List.mem_cons_of_mem x hy)
    have hsum0 : 0 ≤ rest.sum := List.sum_nonneg hrest
    have hstep0 : (0 : ℚ) ≤ 2 ^ k / 2 ^ 54 := by positivity
    have hlen0 : (0 : ℚ) ≤ (rest.length : ℚ) * (2 ^ k / 2 ^ 54) :=
      mul_nonneg (Nat.cast_nonneg _) hstep0
    simp only [List.sum_cons, List.length_cons] at hlt
    push_cast at hlt
    obtain ⟨b, hb, hb0, hnear⟩ := toDouble_near (a + x) k (by linarith) (by linarith) hk
    rw [abs_le] at hnear
    obtain ⟨r, hr, hr0, hrn⟩ := ih b hb0 hrest (by linarith [hnear.2])
    refine ⟨r, ?_, hr0, ?_⟩
    · simp only [List.foldl_cons, Option.some_bind, hb]
      exact hr
    · simp only [List.sum_cons, List.length_cons]
      push_cast
      rw [abs_le] at hrn ⊢
      constructor <;> linarith [hrn.1, hrn.2, hnear.1, hnear.2]

theorem toFixed2_near (x : ℚ) (h0 : 0 ≤ x) (hbig : x < 10 ^ 21) :
    |toFixed2 x - x| ≤ 1 / 200 := by
  have h1 : ((⌊x * 100 + 1 / 2⌋ : ℤ) : ℚ) ≤ x * 100 + 1 / 2 := Int.floor_le _
  have h2 : x * 100 + 1 / 2 < ((⌊x * 100 + 1 / 2⌋ : ℤ) : ℚ) + 1 := Int.lt_floor_add_one _
  unfold toFixed2
  rw [if_neg (by rw [abs_of_nonneg h0]; exact not_le.mpr hbig), if_neg (not_lt.mpr h0)]
  rw [abs_le]
  constructor <;> linarith

/-! ## Marketplace statistics: `getMarketplaceStats` -/

theorem toFixed2_hundredths (k : ℤ) : toFixed2 ((k : ℚ) / 100) = (k : ℚ) / 100 := by
  unfold toFixed2
  split_ifs with h1 h2
  · rfl
  · have hfl : ⌊-((k : ℚ) / 100) * 100 + 1 / 2⌋ = -k := by
      rw [Int.floor_eq_iff]
      constructor <;> push_cast <;> linarith
    rw [hfl]
    push_cast
    ring
  · have hfl : ⌊(k : ℚ) / 100 * 100 + 1 / 2⌋ = k := by
      rw [Int.floor_eq_iff]
      constructor <;> linarith
    rw [hfl]

theorem toFixed2_zero : toFixed2 0 = 0 := by
  simpa using toFixed2_hundredths 0

theorem mathMin_le_init (ps : List ℚ) (p : ℚ) : mathMin p ps ≤ p := by
  induction ps generalizing p with
  | nil => simp [mathMin]
  | cons q qs ih =>
    have h := ih (min p q)
    simp only [mathMin, List.foldl_cons] at h ⊢
    exact h.trans (min_le_left p q)

theorem mathMin_le_mem (ps : List ℚ) (p q : ℚ) (hq : q ∈ ps) : mathMin p ps ≤ q := by
  induction ps generalizing p with
  | nil => cases hq
  | cons r rs ih =>
    simp only [mathMin, List.foldl_cons]
    rcases List.mem_cons.mp hq with h | h
    · subst h
      exact (mathMin_le_init rs (min p q)).trans (min_le_right p q)
    · exact ih (min p r) h

theorem mathMin_mem (ps : List ℚ) (p : ℚ) : mathMin p ps ∈ p :: ps := by
  induction ps generalizing p with
  | nil => simp [mathMin]
  | cons r rs ih =>
    have h := ih (min p r)
    simp only [mathMin, List.foldl_cons] at h ⊢
    rcases List.mem_cons.mp h with h | h
    · rw [h]
      rcases min_choice p r with hm | hm <;> rw [hm] <;> simp
    · exact List.mem_cons_of_mem _ (List.mem_cons_of_mem _ h)

theorem mem_positivePrices (listings : List Listing) (q : ℚ) :
    q ∈ positivePrices (activeListings listings) ↔
      ∃ l ∈ listings, l.status = "active" ∧ l.price = some q ∧ 0 < q := by
  unfold positivePrices activeListings parseFloat
  simp only [List.mem_filterMap, List.mem_map, List.mem_filter, beq_iff_eq]
  constructor
  · rintro ⟨p, ⟨l, ⟨hl, hs⟩, rfl⟩, hp⟩
    cases hprice : l.price with
    | none => simp [hprice] at hp
    | some r =>
      simp only [hprice] at hp
      by_cases hr : r > 0
      · simp only [hr, if_true, Option.some.injEq] at hp
        subst hp
        exact ⟨l, hl, hs, hprice, hr⟩
      · simp [hr] at hp
  · rintro ⟨l, hl, hs, hprice, hq⟩
    exact ⟨some q, ⟨l, ⟨hl, hs⟩, hprice⟩, by simp [hq]⟩

theorem activeListings_idem (listings : List Listing) :
    activeListings (activeListings listings) = activeListings listings := by
  simp [activeListings]

theorem toFixed2_eval_nonneg (x : ℚ) (n : ℤ) (h0 : 0 ≤ x) (hbig : x < 10 ^ 21)
    (hlo : (n : ℚ) ≤ x * 100 + 1 / 2) (hhi : x * 100 + 1 / 2 < n + 1) :
    toFixed2 x = n / 100 := by
  unfold toFixed2
  rw [if_neg (by rw [abs_of_nonneg h0]; exact not_le.mpr hbig), if_neg (not_lt.mpr h0)]
  rw [Int.floor_eq_iff.mpr ⟨hlo, hhi⟩]

theorem floorPrice_of_minimum (listings : List Listing) (m : ℚ)
    (hm : IsFloorPrice listings m) :
    (getMarketplaceStats listings).floorPrice = toFixed2 m := by
  obtain ⟨hex, hmin⟩ := hm
  have hmem : m ∈ positivePrices (activeListings listings) :=
    (mem_positivePrices listings m).mpr hex
  have hval : (getMarketplaceStats listings).floorPrice =
      toFixed2 (match positivePrices (activeListings listings) with
        | [] => 0
        | p :: ps => mathMin p ps) := rfl
  rw [hval]
  cases hP : positivePrices (activeListings listings) with
  | nil => rw [hP] at hmem; cases hmem
  | cons p ps =>
    rw [hP] at hmem
    have hle : mathMin p ps ≤ m := by
      rcases List.mem_cons.mp hmem with h | h
      · rw [h]; exact mathMin_le_init ps p
      · exact mathMin_le_mem ps p m h
    have hin : mathMin p ps ∈ positivePrices (activeListings listings) := by
      rw [hP]; exact mathMin_mem ps p
    obtain ⟨l, hl, hs, hprice, hpos⟩ := (mem_positivePrices listings _).mp hin
    have hge : m ≤ mathMin p ps := hmin l hl hs _ hprice hpos
    have heq : mathMin p ps = m := le_antisymm hle hge
    simp only [heq]

theorem floorPrice_of_none (listings : List Listing)
    (h : ¬ ∃ l ∈ listings, l.status = "active" ∧ ∃ q : ℚ, l.price = some q ∧ 0 < q) :
    (getMarketplaceStats listings).floorPrice = 0 := by
  have hval : (getMarketplaceStats listings).floorPrice =
      toFixed2 (match positivePrices (activeListings listings) with
        | [] => 0
        | p :: ps => mathMin p ps) := rfl
  rw [hval]
  cases hP : positivePrices (activeListings listings) with
  | nil => exact toFixed2_zero
  | cons p ps =>
    exfalso
    have hin : p ∈ positivePrices (activeListings listings) := by
      rw [hP]; exact List.mem_cons_self _ _
    obtain ⟨l, hl, hs, hprice, hpos⟩ := (mem_positivePrices listings _).mp hin
    exact h ⟨l, hl, hs, p, hprice, hpos⟩

/-- C9, as stated, fails: with one active listing priced 3.0625 (and a cancelled one priced
1) the minimum price among the active listings with price > 0 is 3.0625, and the
`floorPrice` reported is 3.06. -/
theorem floorPrice_not_minimum :
    IsFloorPrice finePricedListings (49 / 16) ∧
    (getMarketplaceStats finePricedListings).floorPrice = 153 / 50 ∧
    (getMarketplaceStats finePricedListings).floorPrice ≠ 49 / 16 := by
  have hfloor : IsFloorPrice finePricedListings (49 / 16) := by
    simp [IsFloorPrice, finePricedListings]
  have hval : (getMarketplaceStats finePricedListings).floorPrice = 153 / 50 := by
    rw [floorPrice_of_minimum _ _ hfloor,
      toFixed2_eval_nonneg (49 / 16) 306 (by norm_num) (by norm_num) (by norm_num)
        (by norm_num)]
    norm_num
  refine ⟨hfloor, hval, ?_⟩
  rw [hval]
  norm_num

/-- C9, amended: the `floorPrice` reported by `getMarketplaceStats` is the minimum price
among the listings with status `active` and price > 0, rounded to two decimal places by
`toFixed(2)` (so it is that minimum when the minimum is a whole number of hundredths), and
is 0 when no active listing has a price > 0; it is computed from the active listings
alone. -/
theorem floorPrice_rounded_minimum (listings : List Listing) :
    (∀ m : ℚ, IsFloorPrice listings m →
      (getMarketplaceStats listings).floorPrice = toFixed2 m ∧
      ∀ k : ℤ, m = (k : ℚ) / 100 → (getMarketplaceStats listings).floorPrice = m) ∧
    ((¬ ∃ l ∈ listings, l.status = "active" ∧ ∃ q : ℚ, l.price = some q ∧ 0 < q) →
      (getMarketplaceStats listings).floorPrice = 0) ∧
    (getMarketplaceStats listings).floorPrice =
      (getMarketplaceStats (activeListings listings)).floorPrice := by
  refine ⟨?_, floorPrice_of_none listings, ?_⟩
  · intro m hm
    refine ⟨floorPrice_of_minimum listings m hm, ?_⟩
    intro k hk
    rw [floorPrice_of_minimum listings m hm, hk, toFixed2_hundredths]
  · show toFixed2 _ = toFixed2 _
    rw [activeListings_idem]

/-- C9, amended, on `[{price:5,active},{price:3,active},{price:10,cancelled}]`: the
minimum is 3 and `floorPrice = 3`. -/
theorem floorPrice_rounded_minimum_witness :
    IsFloorPrice sampleListings 3 ∧ (getMarketplaceStats sampleListings).floorPrice = 3 := by
  have hfloor : IsFloorPrice sampleListings 3 := by
    norm_num [IsFloorPrice, sampleListings]
  exact ⟨hfloor,
    ((floorPrice_rounded_minimum sampleListings).1 3 hfloor).2 300 (by norm_num)⟩

theorem totalVolume_eq (listings : List Listing) :
    (getMarketplaceStats listings).totalVolume =
      (doubleSum ((activeListings listings).map (fun l => l.price.getD 0))).map toFixed2 := by
  have hval : (getMarketplaceStats listings).totalVolume =
      ((activeListings listings).foldl
        (fun sum listing =>
          sum.bind (fun s => toDouble (s + jsOrZero (parseFloat listing.price))))
        (some 0)).map toFixed2 := rfl
  rw [hval]
  unfold doubleSum
  rw [List.foldl_map]
  simp only [parseFloat, jsOrZero_eq_getD]

/-- C10, as stated, fails: with active listings priced 0.0625 and 2 the sum of `price`
over the active listings is 2.0625 (the additions are exact in doubles), and the
`totalVolume` reported is 2.06. -/
theorem totalVolume_not_sum :
    activePriceSum fineVolumeListings = 33 / 16 ∧
    (getMarketplaceStats fineVolumeListings).totalVolume = some (103 / 50) ∧
    (getMarketplaceStats fineVolumeListings).totalVolume ≠
      some (activePriceSum fineVolumeListings) := by
  have hsum : activePriceSum fineVolumeListings = 33 / 16 := by
    norm_num [activePriceSum, fineVolumeListings]
  have h1 : toDouble ((0 : ℚ) + 1 / 16) = some (1 / 16) := by
    have h := toDouble_eq_pos ((0 : ℚ) + 1 / 16) (1 / 2 ^ 56) (-4) 4503599627370496
      (by norm_num) (by norm_num) (by norm_num) (by norm_num) (by norm_num) (by norm_num)
      (by norm_num) (by norm_num) (by norm_num)
    rw [h]
    norm_num
  have h2 : toDouble ((1 : ℚ) / 16 + 2) = some (33 / 16) := by
    have h := toDouble_eq_pos ((1 : ℚ) / 16 + 2) (1 / 2 ^ 51) 1 4644337115725824
      (by norm_num) (by norm_num) (by norm_num) (by norm_num) (by norm_num) (by norm_num)
      (by norm_num) (by norm_num) (by norm_num)
    rw [h]
    norm_num
  have hval : (getMarketplaceStats fineVolumeListings).totalVolume = some (103 / 50) := by
    rw [totalVolume_eq]
    have hlist : (activeListings fineVolumeListings).map (fun l => l.price.getD 0) =
        [1 / 16, 2] := by
      simp [activeListings, fineVolumeListings]
    rw [hlist]
    simp only [doubleSum, List.foldl_cons, List.foldl_nil, Option.some_bind, h1, h2,
      Option.map_some']
    rw [toFixed2_eval_nonneg (33 / 16) 206 (by norm_num) (by norm_num) (by norm_num)
        (by norm_num)]
    norm_num
  refine ⟨hsum, hval, ?_⟩
  rw [hval, hsum]
  norm_num

/-- The additions are rounded: for active listings priced at the doubles `0.005` and
`0.01` the code's sum is the double just below 0.015 and the `totalVolume` reported is
0.01, while the exact sum of the two prices, rounded to two decimals, is 0.02. -/
theorem totalVolume_rounds_each_addition :
    (getMarketplaceStats centListings).totalVolume = some (1 / 100) ∧
    toFixed2 (activePriceSum centListings) = 2 / 100 := by
  have hsum : activePriceSum centListings = 17293822569102705 / 2 ^ 60 := by
    norm_num [activePriceSum, centListings]
  have h1 : toDouble ((0 : ℚ) + 5764607523034235 / 2 ^ 60) =
      some (5764607523034235 / 2 ^ 60) := by
    have h := toDouble_eq_pos ((0 : ℚ) + 5764607523034235 / 2 ^ 60) (1 / 2 ^ 60) (-8)
      5764607523034235
      (by norm_num) (by norm_num) (by norm_num) (by norm_num) (by norm_num) (by norm_num)
      (by norm_num) (by norm_num) (by norm_num)
    rw [h]
    norm_num
  have h2 : toDouble ((5764607523034235 : ℚ) / 2 ^ 60 + 5764607523034235 / 2 ^ 59) =
      some (1080863910568919 / 2 ^ 56) := by
    have h := toDouble_tie_even_pos
      ((5764607523034235 : ℚ) / 2 ^ 60 + 5764607523034235 / 2 ^ 59) (1 / 2 ^ 59) (-7)
      8646911284551352
      (by norm_num) (by norm_num) (by norm_num) (by norm_num) (by norm_num) (by norm_num)
      (by norm_num) (by norm_num) (by norm_num)
    rw [h]
    norm_num
  constructor
  · rw [totalVolume_eq]
    have hlist : (activeListings centListings).map (fun l => l.price.getD 0) =
        [5764607523034235 / 2 ^ 60, 5764607523034235 / 2 ^ 59] := by
      simp [activeListings, centListings]
    rw [hlist]
    simp only [doubleSum, List.foldl_cons, List.foldl_nil, Option.some_bind, h1, h2,
      Option.map_some']
    rw [toFixed2_eval_nonneg (1080863910568919 / 2 ^ 56) 1 (by norm_num) (by norm_num)
        (by norm_num) (by norm_num)]
    norm_num
  · rw [hsum, toFixed2_eval_nonneg (17293822569102705 / 2 ^ 60) 2 (by norm_num) (by norm_num)
        (by norm_num) (by norm_num)]
    norm_num

/-- C10, amended: the `totalVolume` reported by `getMarketplaceStats` is the sum of `price`
over the listings with status `active` (and only those), added in listing order from 0
with every addition rounded to the nearest double, and then rounded to two decimal
places by `toFixed(2)`; when the active prices are whole numbers with a sum below `2^53`
it is their sum; and when the `n` active prices are not negative and their exact sum `S`
has `S + n * 2^(k-54) < 2^k` for some `k <= 52`, it is within `0.005 + n * 2^(k-54)` of
`S`. -/
theorem totalVolume_double_sum (listings : List Listing) :
    (getMarketplaceStats listings).totalVolume =
      (doubleSum ((activeListings listings).map (fun l => l.price.getD 0))).map toFixed2 ∧
    (∀ ns : List ℕ,
      (activeListings listings).map (fun l => l.price) = ns.map (fun n : ℕ => some (n : ℚ)) →
      ns.sum < 2 ^ 53 →
      (getMarketplaceStats listings).totalVolume = some (activePriceSum listings) ∧
      activePriceSum listings = (ns.sum : ℚ)) ∧
    (getMarketplaceStats listings).totalVolume =
      (getMarketplaceStats (activeListings listings)).totalVolume ∧
    (∀ k : ℕ, k ≤ 52 →
      (∀ l ∈ activeListings listings, 0 ≤ l.price.getD 0) →
      activePriceSum listings +
        ((activeListings listings).length : ℚ) * (2 ^ k / 2 ^ 54) < 2 ^ k →
      ∃ v : ℚ, (getMarketplaceStats listings).totalVolume = some v ∧
        |v - activePriceSum listings| ≤
          1 / 200 + ((activeListings listings).length : ℚ) * (2 ^ k / 2 ^ 54)) := by
  refine ⟨totalVolume_eq listings, ?_, ?_, ?_⟩
  · intro ns hns hlt
    have hprices : (activeListings listings).map (fun l => l.price.getD 0) =
        ns.map (fun n : ℕ => (n : ℚ)) := by
      have h := congrArg (List.map (fun o : Option ℚ => o.getD 0)) hns
      simpa [List.map_map, Function.comp] using h
    have hexact : activePriceSum listings = (ns.sum : ℚ) := by
      have : activePriceSum listings =
          ((activeListings listings).map (fun l => l.price.getD 0)).sum := rfl
      rw [this, hprices]
      simp
    refine ⟨?_, hexact⟩
    rw [totalVolume_eq, hprices]
    unfold doubleSum
    have h0 : (some (0 : ℚ)) = some ((0 : ℕ) : ℚ) := by simp
    rw [h0, doubleSum_natCast ns 0 (by omega)]
    simp only [Option.map_some', Nat.zero_add, hexact]
    have hk := toFixed2_hundredths ((100 * ns.sum : ℕ) : ℤ)
    have hcast : (((100 * ns.sum : ℕ) : ℤ) : ℚ) / 100 = (ns.sum : ℚ) := by
      generalize ns.sum = k
      push_cast
      ring
    rw [hcast] at hk
    rw [hk]
  · rw [totalVolume_eq, totalVolume_eq, activeListings_idem]
  · intro k hk hnonneg hlt
    have hexact : activePriceSum listings =
        ((activeListings listings).map (fun l => l.price.getD 0)).sum := rfl
    have hxs : ∀ x ∈ (activeListings listings).map (fun l => l.price.getD 0), 0 ≤ x := by
      intro x hx
      obtain ⟨l, hl, rfl⟩ := List.mem_map.mp hx
      exact hnonneg l hl
    have hlen : ((activeListings listings).map (fun l => l.price.getD 0)).length =
        (activeListings listings).length := List.length_map _ _
    obtain ⟨r, hr, hr0, hrn⟩ :=
      doubleSum_near k hk ((activeListings listings).map (fun l => l.price.getD 0)) 0
        (le_refl 0) hxs (by rw [hlen, ← hexact, zero_add]; exact hlt)
    rw [hlen, ← hexact, zero_add] at hrn
    rw [abs_le] at hrn
    have hpow : (2 : ℚ) ^ k ≤ 2 ^ 52 := pow_le_pow_right₀ (by norm_num) hk
    have hbig : r < 10 ^ 21 := by
      have h52 : (2 : ℚ) ^ 52 < 10 ^ 21 := by norm_num
      linarith [hrn.2]
    have hfix := toFixed2_near r hr0 hbig
    rw [abs_le] at hfix
    refine ⟨toFixed2 r, ?_, ?_⟩
    · rw [totalVolume_eq]
      unfold doubleSum
      rw [hr]
      rfl
    · rw [abs_le]
      constructor <;> linarith [hfix.1, hfix.2, hrn.1, hrn.2]

/-- C10, amended, on `[{price:5,active},{price:3,active},{price:10,cancelled}]`: the sum
over the active listings is 8 and `totalVolume = 8`. -/
theorem totalVolume_double_sum_witness :
    activePriceSum sampleListings = 8 ∧
    (getMarketplaceStats sampleListings).totalVolume = some 8 := by
  have hne : ("cancelled" == "active") = false := by decide
  have hns : (activeListings sampleListings).map (fun l => l.price) =
      [5, 3].map (fun n : ℕ => some (n : ℚ)) := by
    simp [activeListings, sampleListings, List.filter, hne]
  obtain ⟨hval, hsum⟩ := (totalVolume_double_sum sampleListings).2.1 [5, 3] hns (by norm_num)
  have h8 : activePriceSum sampleListings = 8 := by
    rw [hsum]
    norm_num
  exact ⟨h8, by rw [hval, h8]⟩

/-! ## Reading tracker: `saveProgress`, `getComicContent`, `toggleBookmark` -/

theorem findById_sampleComic : Comic.findById [sampleComic] "comic-1" = some sampleComic := by
  simp [Comic.findById, sampleComic]

theorem parseInt_natCast (n : ℕ) (h21 : (n : ℚ) < 10 ^ 21) :
    parseInt (some (n : ℚ)) = some (n : ℚ) := by
  rcases Nat.eq_zero_or_pos n with h0 | hpos
  · subst h0
    simp [parseInt]
  · have h1 : (1 : ℚ) ≤ (n : ℚ) := by exact_mod_cast hpos
    have hne : (n : ℚ) ≠ 0 := by linarith
    have hnn : ¬ ((n : ℚ) < 0) := not_lt.mpr (Nat.cast_nonneg n)
    have habs : |(n : ℚ)| = (n : ℚ) := abs_of_nonneg (Nat.cast_nonneg n)
    have hmicro : doubleMicro ≤ (n : ℚ) := by
      have : doubleMicro ≤ 1 := by norm_num [doubleMicro]
      linarith
    have hfl : ⌊(n : ℚ)⌋ = (n : ℤ) := Int.floor_natCast n
    simp only [parseInt, hne, habs, hmicro, h21, hnn, hfl, if_false, and_self, if_true,
      Int.cast_natCast]

theorem findById_fortyPageComic :
    Comic.findById [fortyPageComic] "comic-4" = some fortyPageComic := by
  simp [Comic.findById, fortyPageComic]

theorem findById_singlePageComic :
    Comic.findById [singlePageComic] "comic-3" = some singlePageComic := by
  simp [Comic.findById, singlePageComic]

theorem saveProgress_first_save (updateProgress : ReadHistory → Option ℚ → ℚ → ReadHistory)
    (comics : List Comic) (store : List ReadHistory) (user : User) (comicId : String)
    (currentPage : Option ℚ) (newId : Nat) (comic : Comic)
    (hcomic : Comic.findById comics comicId = some comic)
    (hnone : ReadHistory.findOne store user.id comicId = none) :
    ∃ r : ReadHistory,
      (saveProgress updateProgress comics store user comicId currentPage newId).2 =
        store ++ [r] ∧
      (saveProgress updateProgress comics store user comicId currentPage newId).1.data =
        some r.progress ∧
      r.progress.currentPage = parseInt currentPage ∧
      r.progress.totalPages = some comic.pageCount ∧
      r.progress.percentage = percentageOf (parseInt currentPage) comic.pageCount ∧
      r.progress.completed = some (jsGe (parseInt currentPage) comic.pageCount) := by
  refine ⟨{ _id := newId, user := user.id, userAccountId := jsOrEmpty user.accountId,
            comic := comicId, episode := none, accessType := "nft-owner",
            progress := { currentPage := parseInt currentPage
                          totalPages := some comic.pageCount
                          percentage := percentageOf (parseInt currentPage) comic.pageCount
                          completed := some (jsGe (parseInt currentPage) comic.pageCount) },
            lastAccessedAt := none }, ?_, ?_, rfl, rfl, rfl, rfl⟩
  · simp only [saveProgress, hcomic, hnone, ReadHistory.create]
  · simp only [saveProgress, hcomic, hnone, ReadHistory.create]

theorem percentageOf_some (c p : ℚ) (hp : p ≠ 0) :
    percentageOf (some c) p =
      (toDouble (c / p)).bind (fun q => (toDouble (q * 100)).map mathRound) := by
  simp [percentageOf, hp]

theorem percentageOf_23_of_40 : percentageOf (some 23) 40 = some 57 := by
  have hq : toDouble ((23 : ℚ) / 40) = some (5179139571476070 / 2 ^ 53) := by
    have h := toDouble_eq_pos ((23 : ℚ) / 40) (1 / 2 ^ 53) (-1) 5179139571476070
      (by norm_num) (by norm_num) (by norm_num) (by norm_num) (by norm_num) (by norm_num)
      (by norm_num) (by norm_num) (by norm_num)
    rw [h]
    norm_num
  have hd : toDouble ((5179139571476070 : ℚ) / 2 ^ 53 * 100) =
      some (8092405580431359 / 2 ^ 47) := by
    have h := toDouble_eq_pos ((5179139571476070 : ℚ) / 2 ^ 53 * 100) (1 / 2 ^ 47) 5
      8092405580431359
      (by norm_num) (by norm_num) (by norm_num) (by norm_num) (by norm_num) (by norm_num)
      (by norm_num) (by norm_num) (by norm_num)
    rw [h]
    norm_num
  rw [percentageOf_eval 23 40 (5179139571476070 / 2 ^ 53) (8092405580431359 / 2 ^ 47)
    (by norm_num) hq hd]
  rw [mathRound_eq (8092405580431359 / 2 ^ 47) 57 (by norm_num) (by norm_num)]
  norm_num

theorem percentageOf_199_of_200 : percentageOf (some 199) 200 = some 100 := by
  have hq : toDouble ((199 : ℚ) / 200) = some (8962163258467287 / 2 ^ 53) := by
    have h := toDouble_eq_pos ((199 : ℚ) / 200) (1 / 2 ^ 53) (-1) 8962163258467287
      (by norm_num) (by norm_num) (by norm_num) (by norm_num) (by norm_num) (by norm_num)
      (by norm_num) (by norm_num) (by norm_num)
    rw [h]
    norm_num
  have hd : toDouble ((8962163258467287 : ℚ) / 2 ^ 53 * 100) = some (199 / 2) := by
    have h := toDouble_eq_pos ((8962163258467287 : ℚ) / 2 ^ 53 * 100) (1 / 2 ^ 46) 6
      7001690045677568
      (by norm_num) (by norm_num) (by norm_num) (by norm_num) (by norm_num) (by norm_num)
      (by norm_num) (by norm_num) (by norm_num)
    rw [h]
    norm_num
  rw [percentageOf_eval 199 200 (8962163258467287 / 2 ^ 53) (199 / 2) (by norm_num) hq hd]
  rw [mathRound_eq (199 / 2) 100 (by norm_num) (by norm_num)]
  norm_num

theorem percentageOf_5_of_1 : percentageOf (some 5) 1 = some 500 := by
  have hq : toDouble ((5 : ℚ) / 1) = some 5 := by
    have h := toDouble_natCast 5 (by norm_num)
    have e : (5 : ℚ) / 1 = ((5 : ℕ) : ℚ) := by norm_num
    rw [e, h]
    norm_num
  have hd : toDouble ((5 : ℚ) * 100) = some 500 := by
    have h := toDouble_natCast 500 (by norm_num)
    have e : (5 : ℚ) * 100 = ((500 : ℕ) : ℚ) := by norm_num
    rw [e, h]
    norm_num
  rw [percentageOf_eval 5 1 5 500 (by norm_num) hq hd]
  have h := mathRound_intCast 500
  simpa using h

theorem toDouble_fiveE7 : toDouble (5 / 10 ^ 7) = some fiveE7 := by
  have h := toDouble_eq_pos ((5 : ℚ) / 10 ^ 7) (1 / 2 ^ 73) (-21) 4722366482869645
    (by norm_num) (by norm_num) (by norm_num) (by norm_num) (by norm_num) (by norm_num)
    (by norm_num) (by norm_num) (by norm_num)
  rw [h]
  norm_num [fiveE7]

theorem parseInt_fiveE7 : parseInt (some fiveE7) = some 5 := by
  have hpos : 0 < fiveE7 := by norm_num [fiveE7]
  have hne : fiveE7 ≠ 0 := ne_of_gt hpos
  have habs : |fiveE7| = fiveE7 := abs_of_pos hpos
  have hsmall : ¬ (doubleMicro ≤ fiveE7 ∧ fiveE7 < 10 ^ 21) := by
    rintro ⟨h, -⟩
    norm_num [doubleMicro, fiveE7] at h
  have hnn : ¬ fiveE7 < 0 := not_lt.mpr (le_of_lt hpos)
  have hlog : Int.log 10 fiveE7 = -7 :=
    log10_eq fiveE7 (-7) hpos (by norm_num [fiveE7]) (by norm_num [fiveE7])
  have hfl : ⌊fiveE7 / (1 / 10 ^ 7)⌋ = 4 := by
    rw [Int.floor_eq_iff]
    constructor <;> norm_num [fiveE7]
  have hnext : toDouble (((4 + 1 : ℤ) : ℚ) * (1 / 10 ^ 7)) = some fiveE7 := by
    have e : ((4 + 1 : ℤ) : ℚ) * (1 / 10 ^ 7) = 5 / 10 ^ 7 := by norm_num
    rw [e]
    exact toDouble_fiveE7
  have hlead := leadingDigit_next fiveE7 (1 / 10 ^ 7) (-7) 4 hlog (by norm_num) hfl hnext
    (by norm_num)
  simp only [parseInt, hne, habs, hsmall, hnn, if_false, hlead]
  norm_num

/-- C11, as stated, fails: on an empty store, saving page 23 of a comic of 40 pages stores
percentage 57, because the double `(23 / 40) * 100` lies below 57.5, while
`round(23 / 40 * 100) = round(57.5) = 58`. -/
theorem saveProgress_percentage_not_round :
    (saveProgress ReadHistory.updateProgress [fortyPageComic] [] sampleUser "comic-4"
      (some 23) 7).2.map (fun r => r.progress.percentage) = [some 57] ∧
    (23 : ℚ) / fortyPageComic.pageCount * 100 = 115 / 2 ∧
    mathRound (23 / fortyPageComic.pageCount * 100) = 58 := by
  obtain ⟨r, hs, -, -, -, hp, -⟩ :=
    saveProgress_first_save ReadHistory.updateProgress [fortyPageComic] [] sampleUser
      "comic-4" (some 23) 7 fortyPageComic findById_fortyPageComic rfl
  have hparse : parseInt (some (23 : ℚ)) = some 23 := parseInt_natCast 23 (by norm_num)
  have hpc : fortyPageComic.pageCount = 40 := rfl
  rw [hparse, hpc, percentageOf_23_of_40] at hp
  refine ⟨?_, by rw [hpc]; norm_num, ?_⟩
  · rw [hs]
    simp only [List.nil_append, List.map_cons, List.map_nil, hp]
  · rw [hpc]
    rw [mathRound_eq (23 / 40 * 100) 58 (by norm_num) (by norm_num)]
    norm_num

/-- C11, amended: for every parsed current page `c = parseInt(currentPage)` and every page
count `P > 0` of the comic, `saveProgress` stores, on a first save, a new record with
`currentPage = c`, `totalPages = P`, `completed = (c >= P)` and
`percentage = Math.round` of the double `(c / P) * 100`, where the quotient and the
product are each rounded to the nearest double; for `0 <= c <= P` that percentage is a
whole number within `1/2 + 2^-45` of `c / P * 100`, and it is the whole number `m`
whenever `c / P * 100` is less than `1/2 - 2^-45` away from `m`. The record's progress is
what is sent; when a record exists it is replaced by the result of its
`updateProgress(c, P)`. -/
theorem saveProgress_stores_double
    (updateProgress : ReadHistory → Option ℚ → ℚ → ReadHistory)
    (comics : List Comic) (store : List ReadHistory) (user : User) (comicId : String)
    (currentPage : Option ℚ) (newId : Nat) (comic : Comic) (c : ℚ)
    (hcomic : Comic.findById comics comicId = some comic) (hP : 0 < comic.pageCount)
    (hc : parseInt currentPage = some c) :
    (ReadHistory.findOne store user.id comicId = none →
      ∃ r : ReadHistory,
        (saveProgress updateProgress comics store user comicId currentPage newId).2 =
          store ++ [r] ∧
        (saveProgress updateProgress comics store user comicId currentPage newId).1.data =
          some r.progress ∧
        r.progress.currentPage = some c ∧
        r.progress.totalPages = some comic.pageCount ∧
        r.progress.percentage =
          (toDouble (c / comic.pageCount)).bind
            (fun q => (toDouble (q * 100)).map mathRound) ∧
        r.progress.completed = some (decide (c ≥ comic.pageCount)) ∧
        (0 ≤ c → c ≤ comic.pageCount →
          (∃ k : ℤ, r.progress.percentage = some (k : ℚ) ∧
            |(k : ℚ) - c / comic.pageCount * 100| ≤ 1 / 2 + 1 / 2 ^ 45) ∧
          (∀ m : ℤ, |c / comic.pageCount * 100 - (m : ℚ)| < 1 / 2 - 1 / 2 ^ 45 →
            r.progress.percentage = some (m : ℚ)))) ∧
    (∀ old : ReadHistory, ReadHistory.findOne store user.id comicId = some old →
      (saveProgress updateProgress comics store user comicId currentPage newId).2 =
        replaceRecord store old (updateProgress old (some c) comic.pageCount) ∧
      (saveProgress updateProgress comics store user comicId currentPage newId).1.data =
        some (updateProgress old (some c) comic.pageCount).progress) := by
  have hne : comic.pageCount ≠ 0 := ne_of_gt hP
  constructor
  · intro hnone
    obtain ⟨r, hs, hdata, hcur, htot, hperc, hdone⟩ :=
      saveProgress_first_save updateProgress comics store user comicId currentPage newId
        comic hcomic hnone
    rw [hc] at hcur hperc hdone
    refine ⟨r, hs, hdata, hcur, htot, ?_, ?_, ?_⟩
    · rw [hperc, percentageOf_some c comic.pageCount hne]
    · rw [hdone]
      rfl
    · intro h0 hle
      obtain ⟨k, hk, -, -, hnear⟩ := percentageOf_near c comic.pageCount hP h0 hle
      refine ⟨⟨k, by rw [hperc, hk], hnear⟩, ?_⟩
      intro m hm
      rw [hperc]
      exact percentageOf_round c comic.pageCount hP h0 hle m hm
  · intro old hold
    simp only [saveProgress, hcomic, hold, hc, and_self]

/-- C11, amended, on a comic of 10 pages and an empty store: saving page 5 stores
percentage 50 and completed false; saving page 10 stores percentage 100 and completed
true. -/
theorem saveProgress_stores_double_witness :
    (∃ r : ReadHistory,
      (saveProgress ReadHistory.updateProgress [sampleComic] [] sampleUser "comic-1"
        (some 5) 7).2 = [r] ∧
      r.progress.totalPages = some 10 ∧ r.progress.percentage = some 50 ∧
      r.progress.completed = some false) ∧
    (∃ r : ReadHistory,
      (saveProgress ReadHistory.updateProgress [sampleComic] [] sampleUser "comic-1"
        (some 10) 7).2 = [r] ∧
      r.progress.totalPages = some 10 ∧ r.progress.percentage = some 100 ∧
      r.progress.completed = some true) := by
  have hP : 0 < sampleComic.pageCount := by norm_num [sampleComic]
  have hpc : sampleComic.pageCount = 10 := rfl
  have hne : (10 : ℚ) ≠ 0 := by norm_num
  constructor
  · obtain ⟨r, hs, -, -, ht, hp, hd, hnear⟩ :=
      (saveProgress_stores_double ReadHistory.updateProgress [sampleComic] [] sampleUser
        "comic-1" (some 5) 7 sampleComic 5 findById_sampleComic hP
        (parseInt_natCast 5 (by norm_num))).1 rfl
    refine ⟨r, by simpa using hs, by rw [ht]; rfl, ?_, ?_⟩
    · have h := (hnear (by norm_num) (by norm_num [sampleComic])).2 50
        (by norm_num [sampleComic])
      simpa using h
    · rw [hd]
      norm_num [sampleComic]
  · obtain ⟨r, hs, -, -, ht, hp, hd, -⟩ :=
      (saveProgress_stores_double ReadHistory.updateProgress [sampleComic] [] sampleUser
        "comic-1" (some 10) 7 sampleComic 10 findById_sampleComic hP
        (parseInt_natCast 10 (by norm_num))).1 rfl
    refine ⟨r, by simpa using hs, by rw [ht]; rfl, ?_, ?_⟩
    · rw [hp, hpc, ← percentageOf_some 10 10 hne]
      exact percentageOf_full 10 (by norm_num)
    · rw [hd]
      norm_num [sampleComic]

theorem findOne_append_of_none (store : List ReadHistory) (doc : ReadHistory)
    (userId comicId : String) (hnone : ReadHistory.findOne store userId comicId = none)
    (hu : doc.user = userId) (hc : doc.comic = comicId) :
    ReadHistory.findOne (store ++ [doc]) userId comicId = some doc := by
  unfold ReadHistory.findOne at hnone ⊢
  rw [List.find?_append, hnone]
  simp [hu, hc]

theorem wholeComicCount_of_findOne_none (store : List ReadHistory) (userId comicId : String)
    (hnone : ReadHistory.findOne store userId comicId = none) :
    wholeComicCount store userId comicId = 0 := by
  unfold ReadHistory.findOne at hnone
  rw [List.find?_eq_none] at hnone
  unfold wholeComicCount
  rw [List.length_eq_zero, List.filter_eq_nil_iff]
  intro r hr hmatch
  apply hnone r hr
  simp only [Bool.and_eq_true] at hmatch ⊢
  exact hmatch.1

theorem wholeComicCount_append (store : List ReadHistory) (doc : ReadHistory)
    (userId comicId : String) (hu : doc.user = userId) (hc : doc.comic = comicId)
    (he : doc.episode = none) :
    wholeComicCount (store ++ [doc]) userId comicId = wholeComicCount store userId comicId + 1 := by
  unfold wholeComicCount
  rw [List.filter_append, List.length_append]
  simp [hu, hc, he]

/-- C12, as stated, fails: a store whose only record for the user and the comic belongs to
an episode holds no record with `episode = null`; the find-or-create step of
`getComicContent` returns that record both times and creates nothing, so the number of
records for `(user, comic)` with `episode = null` is 0 after the two runs, not 1. -/
theorem findOrCreateProgress_creates_nothing :
    wholeComicCount [episodeRecord] "user-1" "comic-1" = 0 ∧
    (findOrCreateProgress [episodeRecord] sampleUser sampleComic "comic-1" 2).1 =
      episodeRecord ∧
    wholeComicCount
      (findOrCreateProgress
        (findOrCreateProgress [episodeRecord] sampleUser sampleComic "comic-1" 2).2
        sampleUser sampleComic "comic-1" 3).2 "user-1" "comic-1" = 0 := by
  have hfind : ReadHistory.findOne [episodeRecord] "user-1" "comic-1" = some episodeRecord := by
    simp [ReadHistory.findOne, episodeRecord]
  have hstep : ∀ n : Nat, findOrCreateProgress [episodeRecord] sampleUser sampleComic
      "comic-1" n = (episodeRecord, [episodeRecord]) := by
    intro n
    have hid : sampleUser.id = "user-1" := rfl
    simp only [findOrCreateProgress, hid, hfind]
  have hcount : wholeComicCount [episodeRecord] "user-1" "comic-1" = 0 := by
    simp [wholeComicCount, episodeRecord]
  refine ⟨hcount, ?_, ?_⟩
  · rw [hstep]
  · rw [hstep, hstep]
    exact hcount

/-- C12, amended: running the find-or-create step of `getComicContent` twice for the same
user and comic returns the same record both times and leaves the store as it was after
the first run; the step creates a record only when the store holds no record at all for
that user and comic, so the number of records for `(user, comic)` with `episode = null`
stays at most one when it was at most one, and is exactly 1 when the store held no record
for that user and comic before. -/
theorem findOrCreateProgress_idempotent (store : List ReadHistory) (user : User)
    (comic : Comic) (comicId : String) (newId newId' : Nat) :
    (findOrCreateProgress (findOrCreateProgress store user comic comicId newId).2
        user comic comicId newId').1 =
      (findOrCreateProgress store user comic comicId newId).1 ∧
    (findOrCreateProgress (findOrCreateProgress store user comic comicId newId).2
        user comic comicId newId').2 =
      (findOrCreateProgress store user comic comicId newId).2 ∧
    (wholeComicCount store user.id comicId ≤ 1 →
      wholeComicCount (findOrCreateProgress store user comic comicId newId).2
        user.id comicId ≤ 1) ∧
    (ReadHistory.findOne store user.id comicId = none →
      wholeComicCount (findOrCreateProgress store user comic comicId newId).2
        user.id comicId = 1) := by
  cases hfind : ReadHistory.findOne store user.id comicId with
  | some r =>
    have h1 : findOrCreateProgress store user comic comicId newId = (r, store) := by
      simp only [findOrCreateProgress, hfind]
    have h2 : findOrCreateProgress store user comic comicId newId' = (r, store) := by
      simp only [findOrCreateProgress, hfind]
    rw [h1]
    simp only [h2]
    exact ⟨trivial, trivial, fun h => h, fun h => by cases h⟩
  | none =>
    have h1 : findOrCreateProgress store user comic comicId newId =
        ReadHistory.create store
          { _id := newId, user := user.id, userAccountId := jsOrEmpty user.accountId,
            comic := comicId, episode := none, accessType := "nft-owner",
            progress := { currentPage := some 1, totalPages := some comic.pageCount,
                          percentage := none, completed := none },
            lastAccessedAt := none } := by
      simp only [findOrCreateProgress, hfind]
    rw [h1]
    simp only [ReadHistory.create]
    have hfound := findOne_append_of_none store
      { _id := newId, user := user.id, userAccountId := jsOrEmpty user.accountId,
        comic := comicId, episode := none, accessType := "nft-owner",
        progress := { currentPage := some 1, totalPages := some comic.pageCount,
                      percentage := none, completed := none },
        lastAccessedAt := none } user.id comicId hfind rfl rfl
    have hcount := wholeComicCount_append store
      { _id := newId, user := user.id, userAccountId := jsOrEmpty user.accountId,
        comic := comicId, episode := none, accessType := "nft-owner",
        progress := { currentPage := some 1, totalPages := some comic.pageCount,
                      percentage := none, completed := none },
        lastAccessedAt := none } user.id comicId rfl rfl rfl
    have hzero := wholeComicCount_of_findOne_none store user.id comicId hfind
    refine ⟨?_, ?_, ?_, ?_⟩
    · simp only [findOrCreateProgress, hfound]
    · simp only [findOrCreateProgress, hfound]
    · intro _
      rw [hcount, hzero]
    · intro _
      rw [hcount, hzero]

/-- C12, amended, on an empty store: after two runs for the same user and comic the store
holds exactly one record for them with `episode = null`. -/
theorem findOrCreateProgress_idempotent_witness :
    wholeComicCount
      (findOrCreateProgress (findOrCreateProgress [] sampleUser sampleComic "comic-1" 1).2
        sampleUser sampleComic "comic-1" 2).2 "user-1" "comic-1" = 1 := by
  have h := findOrCreateProgress_idempotent [] sampleUser sampleComic "comic-1" 1 2
  rw [h.2.1]
  exact h.2.2.2 rfl

/-- C13, as stated, fails: on an empty store `saveProgress` with `currentPage = 5` creates
a record whose `progress.currentPage` is 5, not 1. -/
theorem saveProgress_creates_at_saved_page :
    ∃ r : ReadHistory,
      (saveProgress ReadHistory.updateProgress [sampleComic] [] sampleUser "comic-1"
        (some 5) 7).2 = [r] ∧
      r.progress.currentPage = some 5 ∧ r.progress.currentPage ≠ some 1 := by
  have hfind : ReadHistory.findOne [] sampleUser.id "comic-1" = none := rfl
  have hparse : parseInt (some (5 : ℚ)) = some 5 := parseInt_natCast 5 (by norm_num)
  refine ⟨{ _id := 7, user := sampleUser.id, userAccountId := jsOrEmpty sampleUser.accountId,
            comic := "comic-1", episode := none, accessType := "nft-owner",
            progress := { currentPage := parseInt (some 5)
                          totalPages := some sampleComic.pageCount
                          percentage := percentageOf (parseInt (some 5)) sampleComic.pageCount
                          completed := some (jsGe (parseInt (some 5)) sampleComic.pageCount) },
            lastAccessedAt := none }, ?_, ?_, ?_⟩
  · simp only [saveProgress, findById_sampleComic, hfind, ReadHistory.create, List.nil_append]
  · exact hparse
  · show parseInt (some (5 : ℚ)) ≠ some 1
    rw [hparse]
    norm_num

/-- C13, amended: when no ReadHistory exists for the user and the comic, the find-or-create
step of `getComicContent` creates a record with `progress.currentPage = 1` and
`progress.totalPages` equal to the comic's page count; `saveProgress` creates its record
with `progress.currentPage = parseInt(currentPage)` of the request and the same
`totalPages`; `toggleBookmark` creates its record with the same `totalPages`; when a record
exists, `getComicContent` returns it as stored and `toggleBookmark` leaves the store
unchanged. -/
theorem created_progress (comics : List Comic) (store : List ReadHistory) (user : User)
    (comic : Comic) (comicId : String) (newId : Nat)
    (hcomic : Comic.findById comics comicId = some comic) :
    (ReadHistory.findOne store user.id comicId = none →
      (∃ r : ReadHistory,
        findOrCreateProgress store user comic comicId newId = (r, store ++ [r]) ∧
        r.progress.currentPage = some 1 ∧ r.progress.totalPages = some comic.pageCount) ∧
      (∀ (updateProgress : ReadHistory → Option ℚ → ℚ → ReadHistory) (currentPage : Option ℚ),
        ∃ r : ReadHistory,
          (saveProgress updateProgress comics store user comicId currentPage newId).2 =
            store ++ [r] ∧
          r.progress.currentPage = parseInt currentPage ∧
          r.progress.totalPages = some comic.pageCount) ∧
      (∃ r : ReadHistory,
        (toggleBookmark comics store user comicId newId).map (fun out => out.2) =
          some (store ++ [r]) ∧
        r.progress.totalPages = some comic.pageCount)) ∧
    (∀ old : ReadHistory, ReadHistory.findOne store user.id comicId = some old →
      findOrCreateProgress store user comic comicId newId = (old, store) ∧
      (toggleBookmark comics store user comicId newId).map (fun out => out.2) =
        some store) := by
  constructor
  · intro hnone
    refine ⟨?_, ?_, ?_⟩
    · refine ⟨{ _id := newId, user := user.id, userAccountId := jsOrEmpty user.accountId,
                comic := comicId, episode := none, accessType := "nft-owner",
                progress := { currentPage := some 1, totalPages := some comic.pageCount,
                              percentage := none, completed := none },
                lastAccessedAt := none }, ?_, rfl, rfl⟩
      simp only [findOrCreateProgress, hnone, ReadHistory.create]
    · intro updateProgress currentPage
      refine ⟨{ _id := newId, user := user.id, userAccountId := jsOrEmpty user.accountId,
                comic := comicId, episode := none, accessType := "nft-owner",
                progress := { currentPage := parseInt currentPage
                              totalPages := some comic.pageCount
                              percentage := percentageOf (parseInt currentPage) comic.pageCount
                              completed := some (jsGe (parseInt currentPage) comic.pageCount) },
                lastAccessedAt := none }, ?_, rfl, rfl⟩
      simp only [saveProgress, hcomic, hnone, ReadHistory.create]
    · refine ⟨{ _id := newId, user := user.id, userAccountId := jsOrEmpty user.accountId,
                comic := comicId, episode := none, accessType := "nft-owner",
                progress := { currentPage := none, totalPages := some comic.pageCount,
                              percentage := none, completed := none },
                lastAccessedAt := none }, ?_, rfl⟩
      simp only [toggleBookmark, hcomic, hnone, ReadHistory.create, Option.map_some']
  · intro old hold
    refine ⟨?_, ?_⟩
    · simp only [findOrCreateProgress, hold]
    · simp only [toggleBookmark, hold, Option.map_some']

/-- C13, amended, on an empty store and a comic of 10 pages: the record `getComicContent`
creates has `currentPage = 1` and `totalPages = 10`. -/
theorem created_progress_witness :
    ∃ r : ReadHistory,
      findOrCreateProgress [] sampleUser sampleComic "comic-1" 1 = (r, [r]) ∧
      r.progress.currentPage = some 1 ∧ r.progress.totalPages = some 10 := by
  obtain ⟨r, h1, h2, h3⟩ :=
    ((created_progress [sampleComic] [] sampleUser sampleComic "comic-1" 1
      findById_sampleComic).1 rfl).1
  exact ⟨r, by simpa using h1, h2, by rw [h3]; rfl⟩

/-! ## Ownership gate: `downloadComic`, `getComicContent` -/

theorem any_owner_iff (nfts : List ComicNFT) (userId : String) :
    nfts.any (fun nft => nft.owner == userId) = true ↔ ∃ nft ∈ nfts, nft.owner = userId := by
  simp [List.any_eq_true]

/-- C14: for an existing comic and every user, `downloadComic` sends the download
locations (`cbzUrl`, `pdfUrl`) exactly when the user is the owner of at least one NFT
record of the comic; otherwise it answers 403 with `success = false` and no data.
`getComicContent` applies the same test before it sends pages and downloads. -/
theorem downloadComic_owner_only (comics : List Comic) (store : List ReadHistory)
    (user : User) (comicId : String) (newId : Nat) (comic : Comic)
    (hcomic : Comic.findById comics comicId = some comic) :
    ((downloadComic comics user comicId).data =
        some { cbzUrl := comic.downloads.cbz, pdfUrl := comic.downloads.pdf,
               title := comic.title } ↔
      ∃ nft ∈ comic.nfts, nft.owner = user.id) ∧
    ((∃ nft ∈ comic.nfts, nft.owner = user.id) →
      (downloadComic comics user comicId).status = 200 ∧
      (downloadComic comics user comicId).success = true) ∧
    ((¬ ∃ nft ∈ comic.nfts, nft.owner = user.id) →
      downloadComic comics user comicId =
        { status := 403, success := false,
          message := some "You must own this comic NFT to download it", data := none }) ∧
    ((∃ nft ∈ comic.nfts, nft.owner = user.id) →
      (getComicContent comics store user comicId newId).1.status = 200 ∧
      ∃ d : ComicContent, (getComicContent comics store user comicId newId).1.data = some d ∧
        d.comic.pages = comic.pages ∧ d.comic.downloads = comic.downloads) ∧
    ((¬ ∃ nft ∈ comic.nfts, nft.owner = user.id) →
      getComicContent comics store user comicId newId =
        ({ status := 403, success := false,
           message := some "You must own this comic NFT to read it", data := none }, store)) := by
  by_cases hown : ∃ nft ∈ comic.nfts, nft.owner = user.id
  · have hany : comic.nfts.any (fun nft => nft.owner == user.id) = true :=
      (any_owner_iff _ _).mpr hown
    refine ⟨?_, ?_, fun h => absurd hown h, ?_, fun h => absurd hown h⟩
    · simp only [downloadComic, hcomic, hany, iff_true_intro hown]
      simp
    · intro _
      simp only [downloadComic, hcomic, hany]
      simp
    · intro _
      simp only [getComicContent, hcomic, hany]
      simp
  · have hany : comic.nfts.any (fun nft => nft.owner == user.id) = false := by
      rw [Bool.eq_false_iff]
      exact fun h => hown ((any_owner_iff _ _).mp h)
    refine ⟨?_, fun h => absurd h hown, ?_, fun h => absurd h hown, ?_⟩
    · simp only [downloadComic, hcomic, hany, iff_false_intro hown]
      simp
    · intro _
      simp only [downloadComic, hcomic, hany]
      simp
    · intro _
      simp only [getComicContent, hcomic, hany]
      simp

/-- C14, on a comic with one NFT record owned by `user-1`: `user-1` gets the locations and
`user-2` gets the 403 answer without data. -/
theorem downloadComic_owner_only_witness :
    (downloadComic [sampleComic] sampleUser "comic-1").data =
      some { cbzUrl := some "saga.cbz", pdfUrl := some "saga.pdf", title := "Saga" } ∧
    downloadComic [sampleComic] walletlessUser "comic-1" =
      { status := 403, success := false,
        message := some "You must own this comic NFT to download it", data := none } :=
  ⟨(downloadComic_owner_only [sampleComic] [] sampleUser "comic-1" 1 sampleComic
      findById_sampleComic).1.mpr ⟨{ owner := "user-1" }, by simp [sampleComic], rfl⟩,
   (downloadComic_owner_only [sampleComic] [] walletlessUser "comic-1" 1 sampleComic
      findById_sampleComic).2.2.1 (by simp [sampleComic, walletlessUser])⟩

/-! ## Comic controller: wallet check, upload validation, collection -/

theorem jsNot_of_no_wallet (user : User)
    (h : user.wallet = none ∨
      ∃ w : Wallet, user.wallet = some w ∧ (w.accountId = none ∨ w.accountId = some "")) :
    jsNot user.accountId = true := by
  rcases h with h | ⟨w, hw, ha | ha⟩
  · simp [User.accountId, h, jsNot]
  · simp [User.accountId, hw, ha, jsNot]
  · simp [User.accountId, hw, ha, jsNot]

/-- C15: when the authenticated user has no linked wallet account id (no wallet, or a
wallet whose `accountId` is absent or empty), each of `createComic`, `mintEpisodeNFT`,
`readEpisode` and `getMyCollection` answers 400 with `success = false` and the message
'Hedera wallet not connected'; whatever the comic service is, it is not called (the state
of the database and the ledger is the one before the request), and `getMyCollection`
answers so whatever the episodes are. -/
theorem wallet_required (user : User)
    (h : user.wallet = none ∨
      ∃ w : Wallet, user.wallet = some w ∧ (w.accountId = none ∨ w.accountId = some "")) :
    (∀ (σ J R : Type) (svc : ComicService σ J R) (req : CreateComicRequest J) (s : σ),
      req.user = user → createComic svc req s = (walletNotConnected R, s)) ∧
    (∀ (σ J R : Type) (svc : ComicService σ J R) (numberToString : ℚ → String)
      (episodeId : String) (quantity : Option ℚ) (s : σ),
      mintEpisodeNFT svc numberToString episodeId quantity user s =
        (walletNotConnected R, s)) ∧
    (∀ (σ J R : Type) (svc : ComicService σ J R) (episodeId : String) (s : σ),
      readEpisode svc episodeId user s = (walletNotConnected (AccessData R), s)) ∧
    (∀ episodes : List Episode,
      getMyCollection episodes user = walletNotConnected (List CollectionEntry)) ∧
    (walletNotConnected Unit).status = 400 ∧ (walletNotConnected Unit).success = false ∧
    (walletNotConnected Unit).message = some "Hedera wallet not connected" := by
  have hnot := jsNot_of_no_wallet user h
  refine ⟨?_, ?_, ?_, ?_, rfl, rfl, rfl⟩
  · intro σ J R svc req s hreq
    simp only [createComic, hreq, hnot, if_true]
  · intro σ J R svc numberToString episodeId quantity s
    simp only [mintEpisodeNFT, hnot, if_true]
  · intro σ J R svc episodeId s
    simp only [readEpisode, hnot, if_true]
  · intro episodes
    simp only [getMyCollection, hnot, if_true]

/-- C15, on a user without wallet and a service that counts its calls: a mint request is
answered with the 400 response and the call count stays 0. -/
theorem wallet_required_witness :
    mintEpisodeNFT countingService (fun _ => "2") "episode-1" (some 2) walletlessUser 0 =
      (walletNotConnected String, 0) :=
  (wallet_required walletlessUser (Or.inl rfl)).2.1 Nat String String countingService
    (fun _ => "2") "episode-1" (some 2) 0

/-- The content test of `createEpisode` on a request that has `req.files`: the answer
is 400 exactly when the cover path is missing or no page was uploaded; then `success` is
false and the service is not called; otherwise the service is called once with the cover
path and exactly the uploaded pages in upload order, and the answer is 201 or 500. -/
theorem createEpisode_with_files {σ J R : Type} (svc : ComicService σ J R)
    (typeError : String) (req : CreateEpisodeRequest J) (s : σ) (files : UploadedFiles)
    (hfiles : req.files = some files) :
    ((createEpisode svc typeError req s).1.status = 400 ↔
      (jsNot (coverPath files) = true ∨ pageRefs files = [])) ∧
    ((jsNot (coverPath files) = true ∨ pageRefs files = []) →
      createEpisode svc typeError req s =
        ({ status := 400, success := false,
           message := some "Cover image and pages are required", data := none }, s)) ∧
    (¬ (jsNot (coverPath files) = true ∨ pageRefs files = []) →
      (createEpisode svc typeError req s).2 =
        (svc.createEpisode
          { comicId := req.comicId, userId := req.user.id, title := req.title,
            description := req.description, episodeNumber := req.episodeNumber,
            coverImage := coverPath files, pages := pageRefs files,
            mintPrice := req.mintPrice, readPrice := req.readPrice,
            maxSupply := req.maxSupply } s).2 ∧
      ((createEpisode svc typeError req s).1.status = 201 ∨
        (createEpisode svc typeError req s).1.status = 500)) ∧
    pageRefs files = (files.pages.getD []).map (fun f => ({ path := f.path } : PageRef)) := by
  have hpages : pageRefs files =
      (files.pages.getD []).map (fun f => ({ path := f.path } : PageRef)) := by
    unfold pageRefs
    cases files.pages <;> simp
  by_cases hbad : jsNot (coverPath files) = true ∨ pageRefs files = []
  · have hcond : (jsNot (coverPath files) || (pageRefs files).length == 0) = true := by
      rcases hbad with hb | hb
      · simp [hb]
      · simp [hb]
    have hval : createEpisode svc typeError req s =
        ({ status := 400, success := false,
           message := some "Cover image and pages are required", data := none }, s) := by
      simp only [createEpisode, hfiles, hcond, if_true]
    refine ⟨?_, fun _ => hval, fun hn => absurd hbad hn, hpages⟩
    rw [hval]
    simp [hbad]
  · have hcond : (jsNot (coverPath files) || (pageRefs files).length == 0) = false := by
      rw [Bool.eq_false_iff]
      intro hc
      apply hbad
      rcases Bool.or_eq_true _ _ ▸ hc with hb | hb
      · exact Or.inl hb
      · exact Or.inr (List.length_eq_zero.mp (by simpa using hb))
    have hstep : (createEpisode svc typeError req s).2 =
          (svc.createEpisode
            { comicId := req.comicId, userId := req.user.id, title := req.title,
              description := req.description, episodeNumber := req.episodeNumber,
              coverImage := coverPath files, pages := pageRefs files,
              mintPrice := req.mintPrice, readPrice := req.readPrice,
              maxSupply := req.maxSupply } s).2 ∧
        ((createEpisode svc typeError req s).1.status = 201 ∨
          (createEpisode svc typeError req s).1.status = 500) := by
      simp only [createEpisode, hfiles, hcond]
      rcases hsvc : svc.createEpisode
          { comicId := req.comicId, userId := req.user.id, title := req.title,
            description := req.description, episodeNumber := req.episodeNumber,
            coverImage := coverPath files, pages := pageRefs files,
            mintPrice := req.mintPrice, readPrice := req.readPrice,
            maxSupply := req.maxSupply } s with ⟨out, s'⟩
      cases out <;> simp
    refine ⟨?_, fun hb => absurd hb hbad, fun _ => hstep, hpages⟩
    constructor
    · intro h400
      rcases hstep.2 with h | h <;> rw [h] at h400 <;> cases h400
    · intro hb
      exact absurd hb hbad

/-- The content test on a request with a cover and two pages: the answer is not 400, the
service is called once and receives the two pages in upload order. -/
theorem createEpisode_with_files_witness :
    (createEpisode countingService "TypeError" fullEpisodeRequest 0).1.status ≠ 400 ∧
    (createEpisode countingService "TypeError" fullEpisodeRequest 0).2 = 1 ∧
    pageRefs fullEpisodeFiles = [{ path := "uploads/p1.png" }, { path := "uploads/p2.png" }] :=
  ⟨fun h => absurd
      ((createEpisode_with_files countingService "TypeError" fullEpisodeRequest 0
        fullEpisodeFiles rfl).1.mp h) (by decide),
   rfl, rfl⟩

/-- C16, at a request that is not multipart (no `req.files`, so no cover and no pages):
reading `files.cover` throws, the `catch` block answers 500 with the message of the
`TypeError`, not the 400 validation answer; the service is not called. -/
theorem createEpisode_without_files :
    createEpisode countingService "Cannot read properties of undefined (reading 'cover')"
        plainEpisodeRequest 0 =
      ({ status := 500, success := false,
         message := some "Cannot read properties of undefined (reading 'cover')",
         data := none }, 0) ∧
    (createEpisode countingService "Cannot read properties of undefined (reading 'cover')"
        plainEpisodeRequest 0).1.status ≠ 400 := by
  constructor
  · rfl
  · decide

/-- C17: for a caller whose linked account id is `a`, `getMyCollection` sends one entry
per episode whose `mintedNFTs` holds a record owned by `a`, in the order of the episodes,
and the `nfts` of an entry are the records of that episode's `mintedNFTs` with owner `a`,
in mirror order: a non-empty list, with no record of another owner, omitting none of
`a`. -/
theorem getMyCollection_owned (episodes : List Episode) (user : User) (a : String)
    (hacc : user.accountId = some a) (hne : a ≠ "") :
    (getMyCollection episodes user).status = 200 ∧
    (getMyCollection episodes user).data =
      some ((episodesOwnedBy episodes (some a)).map (collectionEntry (some a))) ∧
    (∀ e : Episode, e ∈ episodesOwnedBy episodes (some a) ↔
      e ∈ episodes ∧ ∃ nft ∈ e.mintedNFTs, nft.owner = some a) ∧
    (episodesOwnedBy episodes (some a)).Sublist episodes ∧
    (∀ e : Episode,
      (collectionEntry (some a) e).nfts.Sublist e.mintedNFTs ∧
      (∀ nft : MintedNFT, nft ∈ (collectionEntry (some a) e).nfts ↔
        nft ∈ e.mintedNFTs ∧ nft.owner = some a) ∧
      (e ∈ episodesOwnedBy episodes (some a) → (collectionEntry (some a) e).nfts ≠ [])) := by
  have hnot : jsNot user.accountId = false := by
    simp [hacc, jsNot, hne]
  have hmem : ∀ e : Episode, e ∈ episodesOwnedBy episodes (some a) ↔
      e ∈ episodes ∧ ∃ nft ∈ e.mintedNFTs, nft.owner = some a := by
    intro e
    simp [episodesOwnedBy, List.mem_filter, List.any_eq_true]
  have hnfts : ∀ (e : Episode) (nft : MintedNFT), nft ∈ (collectionEntry (some a) e).nfts ↔
      nft ∈ e.mintedNFTs ∧ nft.owner = some a := by
    intro e nft
    simp [collectionEntry, List.mem_filter]
  refine ⟨?_, ?_, hmem, List.filter_sublist _, ?_⟩
  · simp [getMyCollection, hnot]
  · rw [hacc] at hnot
    simp [getMyCollection, hnot, hacc]
  · intro e
    refine ⟨List.filter_sublist _, hnfts e, ?_⟩
    intro he hnil
    obtain ⟨nft, hin, hown⟩ := ((hmem e).mp he).2
    have hx : nft ∈ (collectionEntry (some a) e).nfts := (hnfts e nft).mpr ⟨hin, hown⟩
    rw [hnil] at hx
    cases hx

/-- C17, on the episode whose mirror is `[{ owner: '0.0.100' }]` and a new episode without
mints: the caller `'0.0.100'` gets one entry, for the first episode. -/
theorem getMyCollection_owned_witness :
    (getMyCollection
        [holdersEpisode, Episode.create "Issue 2" "comic-1" "creator-1" "0.0.5001" 2]
        sampleUser).data =
      some [collectionEntry (some "0.0.100") holdersEpisode] := by
  rw [(getMyCollection_owned
    [holdersEpisode, Episode.create "Issue 2" "comic-1" "creator-1" "0.0.5001" 2]
    sampleUser "0.0.100" rfl (by decide)).2.1]
  rfl

/-! ## Validators -/

theorem matchesAll_chr (c : Char) (s : List Char) :
    (Regex.chr c).matchesAll s = true ↔ s = [c] := by
  simp [Regex.matchesAll]

theorem matchesAll_plus (cls : Char → Bool) (s : List Char) :
    (Regex.plus cls).matchesAll s = true ↔ s ≠ [] ∧ ∀ c ∈ s, cls c = true := by
  cases s <;> simp [Regex.matchesAll]

theorem matchesAll_seq (a b : Regex) (s : List Char) :
    (Regex.seq a b).matchesAll s = true ↔
      ∃ x y : List Char, s = x ++ y ∧ a.matchesAll x = true ∧ b.matchesAll y = true := by
  simp only [Regex.matchesAll, List.any_eq_true, List.mem_range, Bool.and_eq_true]
  constructor
  · rintro ⟨i, -, ha, hb⟩
    exact ⟨s.take i, s.drop i, (List.take_append_drop i s).symm, ha, hb⟩
  · rintro ⟨x, y, rfl, ha, hb⟩
    refine ⟨x.length, by simp; omega, ?_, ?_⟩
    · simpa using ha
    · simpa using hb

theorem matchesAll_chr_seq (c : Char) (r : Regex) (s : List Char) :
    (Regex.seq (Regex.chr c) r).matchesAll s = true ↔
      ∃ t : List Char, s = c :: t ∧ r.matchesAll t = true := by
  rw [matchesAll_seq]
  constructor
  · rintro ⟨x, y, rfl, hx, hy⟩
    rw [matchesAll_chr] at hx
    subst hx
    exact ⟨y, rfl, hy⟩
  · rintro ⟨t, rfl, ht⟩
    exact ⟨[c], t, rfl, (matchesAll_chr c [c]).mpr rfl, ht⟩

/-- C18: `isValidAccountId(s)` is true exactly when `s` is `'0.0.'` followed by one or more
decimal digits and nothing else. -/
theorem isValidAccountId_iff (s : String) :
    isValidAccountId s = true ↔
      ∃ d : String, d ≠ "" ∧ (∀ c ∈ d.toList, c.isDigit = true) ∧ s = "0.0." ++ d := by
  unfold isValidAccountId Regex.test accountIdRegex
  simp only [matchesAll_chr_seq, matchesAll_plus]
  constructor
  · rintro ⟨t1, h1, t2, h2, t3, h3, t4, h4, hne, hdig⟩
    refine ⟨String.mk t4, ?_, hdig, ?_⟩
    · intro h
      apply hne
      have := congrArg String.data h
      simpa using this
    · apply String.ext
      rw [String.data_append]
      show s.toList = _
      rw [h1, h2, h3, h4]
      rfl
  · rintro ⟨d, hne, hdig, rfl⟩
    refine ⟨'.' :: '0' :: '.' :: d.toList, ?_, '0' :: '.' :: d.toList, rfl, '.' :: d.toList,
      rfl, d.toList, rfl, ?_, hdig⟩
    · show ("0.0." ++ d).data = _
      rw [String.data_append]
      rfl
    · intro h
      apply hne
      apply String.ext
      exact h

/-- C18, on the strings of the test: `'0.0.123456'`, `'0.0.1'`, `'0.0.999999999'` are
accepted; `'0.1.123'`, `'123456'`, `'invalid'` are rejected. -/
theorem isValidAccountId_examples :
    isValidAccountId "0.0.123456" = true ∧ isValidAccountId "0.0.1" = true ∧
    isValidAccountId "0.0.999999999" = true ∧ isValidAccountId "0.1.123" = false ∧
    isValidAccountId "123456" = false ∧ isValidAccountId "invalid" = false := by
  have h := (isValidAccountId_iff "0.0.1").mpr ⟨"1", by decide, by decide, by decide⟩
  exact ⟨by decide, h, by decide, by decide, by decide, by decide⟩

theorem notSpaceNorAt_iff (c : Char) :
    notSpaceNorAt c = true ↔ isJsWhitespace c = false ∧ c ≠ '@' := by
  unfold notSpaceNorAt
  cases hws : isJsWhitespace c <;> simp

theorem emailRegex_matches_iff (s : List Char) :
    emailRegex.matchesAll s = true ↔
      ∃ l a b : List Char, s = l ++ '@' :: (a ++ '.' :: b) ∧
        (l ≠ [] ∧ ∀ c ∈ l, notSpaceNorAt c = true) ∧
        (a ≠ [] ∧ ∀ c ∈ a, notSpaceNorAt c = true) ∧
        (b ≠ [] ∧ ∀ c ∈ b, notSpaceNorAt c = true) := by
  unfold emailRegex
  constructor
  · intro h
    rw [matchesAll_seq] at h
    obtain ⟨l, y, rfl, hl, hy⟩ := h
    rw [matchesAll_chr_seq] at hy
    obtain ⟨t, rfl, ht⟩ := hy
    rw [matchesAll_seq] at ht
    obtain ⟨a, z, rfl, ha, hz⟩ := ht
    rw [matchesAll_chr_seq] at hz
    obtain ⟨b, rfl, hb⟩ := hz
    rw [matchesAll_plus] at hl ha hb
    exact ⟨l, a, b, rfl, hl, ha, hb⟩
  · rintro ⟨l, a, b, rfl, hl, ha, hb⟩
    rw [matchesAll_seq]
    refine ⟨l, _, rfl, (matchesAll_plus _ _).mpr hl, ?_⟩
    rw [matchesAll_chr_seq]
    refine ⟨_, rfl, ?_⟩
    rw [matchesAll_seq]
    refine ⟨a, _, rfl, (matchesAll_plus _ _).mpr ha, ?_⟩
    rw [matchesAll_chr_seq]
    exact ⟨b, rfl, (matchesAll_plus _ _).mpr hb⟩

/-- C19: `isValidEmail(s)` is true exactly when `s` contains no whitespace, contains
exactly one `'@'`, has a non-empty part before the `'@'`, and the part after the `'@'`
contains a `'.'` that is neither its first nor its last character. -/
theorem isValidEmail_iff (s : String) :
    isValidEmail s = true ↔
      (∀ c ∈ s.toList, isJsWhitespace c = false) ∧
      s.toList.count '@' = 1 ∧
      ∃ l d : List Char, s.toList = l ++ '@' :: d ∧ l ≠ [] ∧
        ∃ i : Nat, 0 < i ∧ i + 1 < d.length ∧ d[i]? = some '.' := by
  unfold isValidEmail Regex.test
  rw [emailRegex_matches_iff]
  have hat : isJsWhitespace '@' = false := by decide
  have hdot : isJsWhitespace '.' = false := by decide
  constructor
  · rintro ⟨l, a, b, hs, ⟨hl, hlc⟩, ⟨ha, hac⟩, ⟨hb, hbc⟩⟩
    have hcount : ∀ x : List Char, (∀ c ∈ x, notSpaceNorAt c = true) → x.count '@' = 0 := by
      intro x hx
      rw [List.count_eq_zero]
      intro hmem
      exact ((notSpaceNorAt_iff _).mp (hx _ hmem)).2 rfl
    refine ⟨?_, ?_, l, a ++ '.' :: b, hs, hl, a.length, ?_, ?_, ?_⟩
    · intro c hc
      rw [hs] at hc
      simp only [List.mem_append, List.mem_cons] at hc
      rcases hc with h | h | h | h | h
      · exact ((notSpaceNorAt_iff c).mp (hlc c h)).1
      · rw [h]; exact hat
      · exact ((notSpaceNorAt_iff c).mp (hac c h)).1
      · rw [h]; exact hdot
      · exact ((notSpaceNorAt_iff c).mp (hbc c h)).1
    · rw [hs]
      simp [List.count_append, List.count_cons, hcount l hlc, hcount a hac, hcount b hbc]
    · exact List.length_pos.mpr ha
    · have := List.length_pos.mpr hb
      simp only [List.length_append, List.length_cons]
      omega
    · rw [List.getElem?_append_right (le_refl _)]
      simp
  · rintro ⟨hws, hcount, l, d, hs, hl, i, hi0, hi1, hidx⟩
    have hlt : i < d.length := by omega
    have hget : d[i] = '.' := by
      rw [List.getElem?_eq_getElem hlt] at hidx
      exact Option.some.inj hidx
    have hd : d = d.take i ++ '.' :: d.drop (i + 1) := by
      conv_lhs => rw [← List.take_append_drop i d]
      rw [List.drop_eq_getElem_cons hlt, hget]
    rw [hs] at hcount
    simp only [List.count_append, List.count_cons, beq_self_eq_true, if_true] at hcount
    have hcl : l.count '@' = 0 := by omega
    have hcd : d.count '@' = 0 := by omega
    have hgood : ∀ c ∈ s.toList, c ≠ '@' → notSpaceNorAt c = true := by
      intro c hc hne
      exact (notSpaceNorAt_iff c).mpr ⟨hws c hc, hne⟩
    have hnotl : ∀ c ∈ l, c ≠ '@' := by
      intro c hc h
      rw [h] at hc
      exact (List.count_eq_zero.mp hcl) hc
    have hnotd : ∀ c ∈ d, c ≠ '@' := by
      intro c hc h
      rw [h] at hc
      exact (List.count_eq_zero.mp hcd) hc
    refine ⟨l, d.take i, d.drop (i + 1), ?_, ⟨hl, ?_⟩, ⟨?_, ?_⟩, ⟨?_, ?_⟩⟩
    · rw [hs, ← hd]
    · intro c hc
      exact hgood c (by rw [hs]; simp [hc]) (hnotl c hc)
    · intro h
      have := congrArg List.length h
      rw [List.length_take, List.length_nil] at this
      omega
    · intro c hc
      have hcd' : c ∈ d := List.mem_of_mem_take hc
      exact hgood c (by rw [hs]; simp [hcd']) (hnotd c hcd')
    · intro h
      have := congrArg List.length h
      rw [List.length_drop, List.length_nil] at this
      omega
    · intro c hc
      have hcd' : c ∈ d := List.mem_of_mem_drop hc
      exact hgood c (by rw [hs]; simp [hcd']) (hnotd c hcd')

/-- C19, on the strings of the test: `'test@example.com'` and `'user.name@domain.co.uk'`
are accepted; `'invalid.email'`, `'@example.com'` and `'test@'` are rejected. -/
theorem isValidEmail_examples :
    isValidEmail "test@example.com" = true ∧ isValidEmail "user.name@domain.co.uk" = true ∧
    isValidEmail "invalid.email" = false ∧ isValidEmail "@example.com" = false ∧
    isValidEmail "test@" = false := by
  have h := (isValidEmail_iff "test@example.com").mpr
    ⟨by decide, by decide, ['t', 'e', 's', 't'], "example.com".toList, by decide, by decide,
      7, by decide, by decide, by decide⟩
  exact ⟨h, by decide, by decide, by decide, by decide⟩

/-! ## Mint bookkeeping over sequences of calls -/

theorem canAccess_snd (ep : Episode) (u : Option String) : (ep.canAccess u).2 = ep := by
  unfold Episode.canAccess
  split_ifs <;> rfl

theorem step_bookkeeping (ep : Episode) (op : Op) (k : ℕ)
    (hop : ∀ (f : StatField) (v : Option ℚ), op = Op.incrementStats f v →
      f ≠ StatField.totalMinted)
    (h1 : ep.supply.currentSupply = (k : ℚ)) (h2 : ep.stats.totalMinted = some (k : ℚ))
    (h3 : ep.mintedNFTs.length = k) :
    (ep.step op).supply.currentSupply = ((k + mintCount [op] : ℕ) : ℚ) ∧
    (ep.step op).stats.totalMinted = some ((k + mintCount [op] : ℕ) : ℚ) ∧
    (ep.step op).mintedNFTs.length = k + mintCount [op] := by
  cases op with
  | canAccess u =>
    simp only [Episode.step, canAccess_snd, mintCount, Nat.add_zero]
    exact ⟨h1, h2, h3⟩
  | addMintedNFT c =>
    simp only [Episode.step, Episode.mint, Episode.addMintedNFT, mintCount, jsAddAssign, h1, h2,
      Option.map_some', List.length_append, List.length_singleton, h3]
    push_cast
    exact ⟨rfl, rfl, trivial⟩
  | incrementStats f v =>
    have hf : f ≠ StatField.totalMinted := hop f v rfl
    have hkeep : (ep.incrementStats f v).stats.totalMinted = ep.stats.totalMinted := by
      have hget := Stats.get_set ep.stats f StatField.totalMinted
        (some (jsOrZero (ep.stats.get f) + v.getD 1))
      rw [if_neg (Ne.symm hf)] at hget
      exact hget
    simp only [Episode.step, mintCount, Nat.add_zero]
    exact ⟨h1, hkeep.trans h2, h3⟩

theorem mintCount_cons (op : Op) (ops : List Op) :
    mintCount (op :: ops) = mintCount [op] + mintCount ops := by
  cases op <;> simp [mintCount, Nat.add_comm]

theorem run_bookkeeping (ops : List Op) (ep : Episode) (k : ℕ)
    (hops : ∀ op ∈ ops, ∀ (f : StatField) (v : Option ℚ), op = Op.incrementStats f v →
      f ≠ StatField.totalMinted)
    (h1 : ep.supply.currentSupply = (k : ℚ)) (h2 : ep.stats.totalMinted = some (k : ℚ))
    (h3 : ep.mintedNFTs.length = k) :
    (ep.run ops).supply.currentSupply = ((k + mintCount ops : ℕ) : ℚ) ∧
    (ep.run ops).stats.totalMinted = some ((k + mintCount ops : ℕ) : ℚ) ∧
    (ep.run ops).mintedNFTs.length = k + mintCount ops := by
  induction ops generalizing ep k with
  | nil => simpa [Episode.run, mintCount] using ⟨h1, h2, h3⟩
  | cons op rest ih =>
    obtain ⟨s1, s2, s3⟩ := step_bookkeeping ep op k
      (hops op (List.mem_cons_self _ _)) h1 h2 h3
    have h := ih (ep.step op) (k + mintCount [op])
      (fun o ho => hops o (List.mem_cons_of_mem _ ho)) s1 s2 s3
    simp only [Episode.run, List.foldl_cons] at h ⊢
    rw [mintCount_cons op rest, ← Nat.add_assoc]
    exact h

/-- C22: for an episode created with the schema defaults (`mintedNFTs` empty,
`supply.currentSupply = 0`, `stats.totalMinted = 0`) and changed only by calls of
`addMintedNFT`, of `incrementStats` on counters other than `totalMinted` (and of the
read-only `canAccess`), after a sequence of calls that holds `n` calls of `addMintedNFT`,
`supply.currentSupply`, `stats.totalMinted` and the length of `mintedNFTs` all equal `n`. -/
theorem mint_bookkeeping (title comic creator collectionTokenId : String) (episodeNumber : ℚ)
    (ops : List Op)
    (hops : ∀ op ∈ ops, ∀ (f : StatField) (v : Option ℚ), op = Op.incrementStats f v →
      f ≠ StatField.totalMinted) :
    ((Episode.create title comic creator collectionTokenId episodeNumber).run ops).supply.currentSupply =
      (mintCount ops : ℚ) ∧
    ((Episode.create title comic creator collectionTokenId episodeNumber).run ops).stats.totalMinted =
      some (mintCount ops : ℚ) ∧
    ((Episode.create title comic creator collectionTokenId episodeNumber).run ops).mintedNFTs.length =
      mintCount ops := by
  have h := run_bookkeeping ops
    (Episode.create title comic creator collectionTokenId episodeNumber) 0 hops
    (by simp [Episode.create]) (by simp [Episode.create]) (by simp [Episode.create])
  simpa using h

/-- C22, on a new episode and the calls mint, `incrementStats('totalReads')`, `canAccess`,
mint: `currentSupply = 2`, `totalMinted = 2` and `mintedNFTs` holds 2 records. -/
theorem mint_bookkeeping_witness :
    ((Episode.create "Issue 1" "comic-1" "creator-1" "0.0.5000" 1).run sampleOps).supply.currentSupply =
      2 ∧
    ((Episode.create "Issue 1" "comic-1" "creator-1" "0.0.5000" 1).run sampleOps).stats.totalMinted =
      some 2 ∧
    ((Episode.create "Issue 1" "comic-1" "creator-1" "0.0.5000" 1).run sampleOps).mintedNFTs.length =
      2 := by
  have hops : ∀ op ∈ sampleOps, ∀ (f : StatField) (v : Option ℚ),
      op = Op.incrementStats f v → f ≠ StatField.totalMinted := by
    intro op hop f v hfv
    subst hfv
    simp [sampleOps] at hop
    rw [hop.1]
    decide
  have hn : mintCount sampleOps = 2 := rfl
  have h := mint_bookkeeping "Issue 1" "comic-1" "creator-1" "0.0.5000" 1 sampleOps hops
  rw [hn] at h
  exact ⟨by simpa using h.1, by simpa using h.2.1, h.2.2⟩

/-! ## Stored progress stays consistent -/

/-- C23, as stated, fails: the request value `5e-7` lies between 0 and the page count 1
of the comic, `parseInt` reads its string `'5e-7'` as 5, and on an empty store
`saveProgress` stores page 5 with percentage 500 and `completed` true. -/
theorem saveProgress_percentage_above_100 :
    toDouble (5 / 10 ^ 7) = some fiveE7 ∧
    0 ≤ fiveE7 ∧ fiveE7 ≤ singlePageComic.pageCount ∧
    (saveProgress ReadHistory.updateProgress [singlePageComic] [] sampleUser "comic-3"
      (some fiveE7) 7).2.map (fun r => r.progress.currentPage) = [some 5] ∧
    (saveProgress ReadHistory.updateProgress [singlePageComic] [] sampleUser "comic-3"
      (some fiveE7) 7).2.map (fun r => r.progress.percentage) = [some 500] ∧
    (saveProgress ReadHistory.updateProgress [singlePageComic] [] sampleUser "comic-3"
      (some fiveE7) 7).2.map (fun r => r.progress.completed) = [some true] := by
  obtain ⟨r, hs, -, hcur, -, hp, hd⟩ :=
    saveProgress_first_save ReadHistory.updateProgress [singlePageComic] [] sampleUser
      "comic-3" (some fiveE7) 7 singlePageComic findById_singlePageComic rfl
  have hpc : singlePageComic.pageCount = 1 := rfl
  rw [parseInt_fiveE7] at hcur
  rw [parseInt_fiveE7, hpc, percentageOf_5_of_1] at hp
  have hdone : jsGe (some 5) 1 = true := by
    norm_num [jsGe]
  rw [parseInt_fiveE7, hpc, hdone] at hd
  refine ⟨toDouble_fiveE7, by norm_num [fiveE7], by rw [hpc]; norm_num [fiveE7], ?_, ?_, ?_⟩
  · rw [hs]
    simp only [List.nil_append, List.map_cons, List.map_nil, hcur]
  · rw [hs]
    simp only [List.nil_append, List.map_cons, List.map_nil, hp]
  · rw [hs]
    simp only [List.nil_append, List.map_cons, List.map_nil, hd]

/-- C23, amended: for every page count `P > 0` of the comic and every request whose parsed
page `c = parseInt(currentPage)` satisfies `0 <= c <= P`, the progress `saveProgress`
stores on a first save has a whole-number `percentage` between 0 and 100, and when its
`completed` is true the `percentage` is 100. -/
theorem saveProgress_progress_consistent
    (updateProgress : ReadHistory → Option ℚ → ℚ → ReadHistory)
    (comics : List Comic) (store : List ReadHistory) (user : User) (comicId : String)
    (currentPage : Option ℚ) (newId : Nat) (comic : Comic) (c : ℚ)
    (hcomic : Comic.findById comics comicId = some comic) (hP : 0 < comic.pageCount)
    (hc : parseInt currentPage = some c) (h0 : 0 ≤ c) (hle : c ≤ comic.pageCount)
    (hnone : ReadHistory.findOne store user.id comicId = none) :
    ∃ (r : ReadHistory) (p : ℚ),
      (saveProgress updateProgress comics store user comicId currentPage newId).2 =
        store ++ [r] ∧
      (saveProgress updateProgress comics store user comicId currentPage newId).1.data =
        some r.progress ∧
      r.progress.percentage = some p ∧ 0 ≤ p ∧ p ≤ 100 ∧
      (r.progress.completed = some true → p = 100) := by
  obtain ⟨r, hstore, hdata, -, -, hperc, hcompl⟩ :=
    saveProgress_first_save updateProgress comics store user comicId currentPage newId comic
      hcomic hnone
  obtain ⟨k, hk, hk0, hk100, -⟩ := percentageOf_near c comic.pageCount hP h0 hle
  refine ⟨r, (k : ℚ), hstore, hdata, ?_, by exact_mod_cast hk0, by exact_mod_cast hk100, ?_⟩
  · rw [hperc, hc, hk]
  · intro hdone
    rw [hcompl, hc] at hdone
    have hge : c ≥ comic.pageCount := by
      simpa [jsGe] using hdone
    have heq : c = comic.pageCount := le_antisymm hle hge
    rw [heq, percentageOf_full comic.pageCount hP] at hk
    injection hk with hk
    rw [← hk]

/-- C23, amended, on an empty store: saving page 10 of 10 stores a percentage within 0..100
that is 100 when `completed` is true; and saving page 199 of 200 stores percentage 100
with `completed` false, so the converse does not hold. -/
theorem saveProgress_progress_consistent_witness :
    (∃ (r : ReadHistory) (p : ℚ),
      (saveProgress ReadHistory.updateProgress [sampleComic] [] sampleUser "comic-1"
        (some 10) 7).2 = [] ++ [r] ∧
      r.progress.percentage = some p ∧ 0 ≤ p ∧ p ≤ 100 ∧
      (r.progress.completed = some true → p = 100)) ∧
    percentageOf (parseInt (some 199)) longComic.pageCount = some 100 ∧
    jsGe (parseInt (some 199)) longComic.pageCount = false := by
  have hparse : parseInt (some (199 : ℚ)) = some 199 := parseInt_natCast 199 (by norm_num)
  have hpc : longComic.pageCount = 200 := rfl
  refine ⟨?_, ?_, ?_⟩
  · obtain ⟨r, p, h1, -, h3, h4, h5, h6⟩ :=
      saveProgress_progress_consistent ReadHistory.updateProgress [sampleComic] [] sampleUser
        "comic-1" (some 10) 7 sampleComic 10 findById_sampleComic
        (by norm_num [sampleComic]) (parseInt_natCast 10 (by norm_num)) (by norm_num)
        (by norm_num [sampleComic]) rfl
    exact ⟨r, p, h1, h3, h4, h5, h6⟩
  · rw [hparse, hpc]
    exact percentageOf_199_of_200
  · rw [hparse, hpc]
    norm_num [jsGe]

/-! ## Upload filter: `fileFilter` -/

theorem matchesAll_lit (cs : List Char) (c : Char) (s : List Char) :
    (Regex.lit c cs).matchesAll s = true ↔ s = c :: cs := by
  induction cs generalizing c s with
  | nil => exact matchesAll_chr c s
  | cons d ds ih =>
    show (Regex.seq (Regex.chr c) (Regex.lit d ds)).matchesAll s = true ↔ _
    rw [matchesAll_chr_seq]
    constructor
    · rintro ⟨t, rfl, ht⟩
      rw [(ih d t).mp ht]
    · rintro rfl
      exact ⟨d :: ds, rfl, (ih d (d :: ds)).mpr rfl⟩

theorem searchAny_iff (alts : List Regex) (s : String) :
    Regex.searchAny alts s = true ↔
      ∃ r ∈ alts, ∃ mid : List Char, mid <:+: s.toList ∧ r.matchesAll mid = true := by
  unfold Regex.searchAny
  simp only [List.any_eq_true, List.mem_range]
  constructor
  · rintro ⟨r, hr, i, -, n, -, hm⟩
    exact ⟨r, hr, _, (List.take_prefix n _).isInfix.trans (List.drop_suffix i _).isInfix, hm⟩
  · rintro ⟨r, hr, mid, ⟨pre, post, hs⟩, hm⟩
    refine ⟨r, hr, pre.length, ?_, mid.length, ?_, ?_⟩
    · rw [← hs]
      simp only [List.length_append]
      omega
    · rw [← hs]
      simp only [List.length_append]
      omega
    · rw [← hs, List.append_assoc, List.drop_left, List.take_left]
      exact hm

theorem searchAny_allowedTypes (s : String) :
    Regex.searchAny allowedTypes s = true ↔ ∃ w ∈ allowedWords, w <:+: s.toList := by
  rw [searchAny_iff]
  constructor
  · rintro ⟨r, hr, mid, hin, hm⟩
    simp only [allowedTypes, List.mem_cons, List.mem_singleton, List.not_mem_nil, or_false] at hr
    rcases hr with rfl | rfl | rfl | rfl
    · rw [matchesAll_lit] at hm
      exact ⟨"jpeg".toList, by simp [allowedWords], by rw [hm] at hin; exact hin⟩
    · rw [matchesAll_lit] at hm
      exact ⟨"jpg".toList, by simp [allowedWords], by rw [hm] at hin; exact hin⟩
    · rw [matchesAll_lit] at hm
      exact ⟨"png".toList, by simp [allowedWords], by rw [hm] at hin; exact hin⟩
    · rw [matchesAll_lit] at hm
      exact ⟨"webp".toList, by simp [allowedWords], by rw [hm] at hin; exact hin⟩
  · rintro ⟨w, hw, hin⟩
    simp only [allowedWords, List.mem_cons, List.mem_singleton, List.not_mem_nil, or_false] at hw
    rcases hw with rfl | rfl | rfl | rfl
    · exact ⟨Regex.lit 'j' ['p', 'e', 'g'], by simp [allowedTypes], _, hin,
        (matchesAll_lit _ _ _).mpr rfl⟩
    · exact ⟨Regex.lit 'j' ['p', 'g'], by simp [allowedTypes], _, hin,
        (matchesAll_lit _ _ _).mpr rfl⟩
    · exact ⟨Regex.lit 'p' ['n', 'g'], by simp [allowedTypes], _, hin,
        (matchesAll_lit _ _ _).mpr rfl⟩
    · exact ⟨Regex.lit 'w' ['e', 'b', 'p'], by simp [allowedTypes], _, hin,
        (matchesAll_lit _ _ _).mpr rfl⟩

/-- What `fileFilter` does: a file is accepted exactly when the lowercased extension of its
name holds one of the words `jpeg`, `jpg`, `png`, `webp` somewhere and its MIME type holds
one of them somewhere; every other file is rejected with the error
'Only image files are allowed'. -/
theorem fileFilter_accepts_iff (file : IncomingFile) :
    (fileFilter file = Except.ok true ↔
      (∃ w ∈ allowedWords, w <:+: (toLowerCase (extname file.originalname)).toList) ∧
      (∃ w ∈ allowedWords, w <:+: file.mimetype.toList)) ∧
    (fileFilter file ≠ Except.ok true →
      fileFilter file = Except.error "Only image files are allowed") := by
  rw [← searchAny_allowedTypes, ← searchAny_allowedTypes]
  unfold fileFilter
  cases h1 : Regex.searchAny allowedTypes (toLowerCase (extname file.originalname)) <;>
    cases h2 : Regex.searchAny allowedTypes file.mimetype <;> simp

/-- The four image formats pass the filter, also with an upper-case extension. -/
theorem fileFilter_images :
    fileFilter { originalname := "cover.jpeg", mimetype := "image/jpeg" } = Except.ok true ∧
    fileFilter { originalname := "cover.jpg", mimetype := "image/jpeg" } = Except.ok true ∧
    fileFilter { originalname := "cover.PNG", mimetype := "image/png" } = Except.ok true ∧
    fileFilter { originalname := "cover.webp", mimetype := "image/webp" } = Except.ok true ∧
    fileFilter { originalname := "cover.pdf", mimetype := "application/pdf" } =
      Except.error "Only image files are allowed" :=
  ⟨rfl, rfl, rfl, rfl, rfl⟩

/-- C21, at the file `archive.jpgz` declared as `application/x-jpgz`: its extension is
`.jpgz`, which is none of `.jpeg`, `.jpg`, `.png`, `.webp`, its MIME type is the type of
none of those formats, and `fileFilter` accepts it. -/
theorem fileFilter_accepts_disguised :
    fileFilter disguisedFile = Except.ok true ∧
    toLowerCase (extname disguisedFile.originalname) = ".jpgz" ∧
    (∀ fmt ∈ imageFormats,
      fmt.1 ≠ toLowerCase (extname disguisedFile.originalname) ∧
      fmt.2 ≠ disguisedFile.mimetype) := by
  refine ⟨rfl, by decide, ?_⟩
  decide

end ComicPad
